import Mathlib

/-!
# MAX30102 signal-processing core: streaming beat detector and windowed estimator

Shallow embedding of `checkForBeat` and `maxim_heart_rate_and_oxygen_saturation`
from `src/Bmduino/code/MAX30102/MAX30102.h`, and of `DHT11::read` from
`src/Bmduino/code/DHT-11/DHT11.h`.

Conventions of the embedding

* `int32_t` values are `Int`; every arithmetic result that is stored in an
  `int32_t` goes through `wrap32` (two's complement wrap-around, the behaviour of
  the target; signed overflow is undefined in C). Division is `Int.tdiv`, which
  truncates toward zero like C.
* `uint32_t` values are `Nat`; sums stored in a `uint32_t` are reduced `% 2^32`.
* The file-level `static` variables read or written by `checkForBeat` become the
  fields of `BeatState`; the function becomes a state transformer returning the
  new state together with the returned `bool`.
-/

namespace MAX30102

/-! ## Machine integers -/

/-- Two's complement reduction of an integer to the `int32_t` range. -/
def wrap32 (z : Int) : Int := (z + 2147483648) % 4294967296 - 2147483648

/-- Membership in the `int32_t` range. -/
def fits32 (z : Int) : Prop := -2147483648 ≤ z ∧ z ≤ 2147483647

instance (z : Int) : Decidable (fits32 z) := by unfold fits32; exact inferInstance

/-! ## Streaming beat detector (`checkForBeat`) -/

/-- The static variables of the detector that `checkForBeat` reads or writes
(`threshold`, `peak`, `trough`, `amp`, `rising`, `lastSample`, `sampleCount`).
The remaining statics of the source (`firstBeat`, `secondBeat`, `beatLast`,
`lastTime`, `riseCount`) are never touched by the function. -/
structure BeatState where
  threshold : Int
  peak : Int
  trough : Int
  amp : Int
  rising : Bool
  lastSample : Int
  sampleCount : Int
  deriving DecidableEq, Repr

/-- The initial values of the statics: all zero, `rising = false`. -/
def initState : BeatState :=
  { threshold := 0, peak := 0, trough := 0, amp := 0, rising := false,
    lastSample := 0, sampleCount := 0 }

/-- Warm-up block of `checkForBeat` (taken when `threshold == 0 && sampleCount < 10`). -/
def warmupStep (s : BeatState) (sample : Int) : BeatState :=
  let t1 := wrap32 (s.threshold + sample)
  let c1 := wrap32 (s.sampleCount + 1)
  let t2 := if c1 = 10 then Int.tdiv t1 10 else t1
  { s with threshold := t2, sampleCount := c1, lastSample := sample }

/-- Block `if (threshold == 0) threshold = sample;`. -/
def seedStep (s : BeatState) (sample : Int) : BeatState :=
  if s.threshold = 0 then { s with threshold := sample } else s

/-- Rising-edge block. -/
def risingStep (s : BeatState) (sample : Int) : BeatState :=
  if sample > s.threshold ∧ s.lastSample ≤ s.threshold ∧ s.rising = false then
    { s with rising := true, peak := sample, trough := s.lastSample }
  else s

/-- Falling-edge block; the Boolean is `beatDetected`. -/
def fallingStep (s : BeatState) (sample : Int) : BeatState × Bool :=
  if sample < s.threshold ∧ s.lastSample ≥ s.threshold ∧ s.rising = true then
    let a := wrap32 (s.peak - s.trough)
    if a > 1000 then
      ({ s with rising := false, amp := a,
                threshold := Int.tdiv (wrap32 (s.peak + s.trough)) 2 }, true)
    else
      ({ s with rising := false, amp := a }, false)
  else (s, false)

/-- Peak update while rising. -/
def peakStep (s : BeatState) (sample : Int) : BeatState :=
  if s.rising = true ∧ sample > s.peak then { s with peak := sample } else s

/-- Trough update while not rising. -/
def troughStep (s : BeatState) (sample : Int) : BeatState :=
  if s.rising = false ∧ (sample < s.trough ∨ s.trough = 0) then
    { s with trough := sample }
  else s

/-- One call of `checkForBeat(sample)`: new statics and the returned flag. -/
def checkForBeat (s : BeatState) (sample : Int) : BeatState × Bool :=
  if s.threshold = 0 ∧ s.sampleCount < 10 then
    (warmupStep s sample, false)
  else
    let s1 := seedStep s sample
    let s2 := risingStep s1 sample
    let r := fallingStep s2 sample
    let s4 := peakStep r.1 sample
    let s5 := troughStep s4 sample
    ({ s5 with lastSample := sample }, r.2)

/-- Statics after feeding the samples in order. -/
def feed (s : BeatState) : List Int → BeatState
  | [] => s
  | x :: xs => feed (checkForBeat s x).1 xs

/-- Return values of the successive calls. -/
def beats (s : BeatState) : List Int → List Bool
  | [] => []
  | x :: xs => (checkForBeat s x).2 :: beats (checkForBeat s x).1 xs

/-- Number of calls that returned `true`. -/
def countBeats (s : BeatState) (xs : List Int) : Nat := (beats s xs).count true

/-- Statics on entry to call number `k` (calls are numbered from 0). -/
def stateBefore (s : BeatState) (xs : List Int) (k : Nat) : BeatState := feed s (xs.take k)

/-- Return value of call number `k`; `false` when there is no such call. -/
def beatAt (s : BeatState) (xs : List Int) (k : Nat) : Bool :=
  match xs[k]? with
  | some x => (checkForBeat (stateBefore s xs k) x).2
  | none => false

/-- Executable check that every sample is strictly below its predecessor. -/
def strictlyDecreasing : List Int → Bool
  | a :: b :: t => decide (b < a) && strictlyDecreasing (b :: t)
  | _ => true

/-- Executable check that the sequence strictly increases up to a maximum and strictly
decreases from there on (either part may be empty). -/
def incThenDec : List Int → Bool
  | a :: b :: t => if a < b then incThenDec (b :: t) else strictlyDecreasing (a :: b :: t)
  | _ => true

/-- An 18-bit magnitude, as delivered by `readFIFO` (`tempLong &= 0x03FFFF`). -/
def is18 (x : Int) : Prop := 0 ≤ x ∧ x < 262144

instance (x : Int) : Decidable (is18 x) := by unfold is18; exact inferInstance

/-- State invariant for a run whose samples all satisfy `P`: either the next call is
the very first warm-up call, or `lastSample` is a sample and, while `rising`, so are
`peak` and `trough`. -/
def SamplesOnly (P : Int → Prop) (s : BeatState) : Prop :=
  (s.rising = false ∧ s.threshold = 0 ∧ s.sampleCount < 10) ∨
  (P s.lastSample ∧ (s.rising = true → P s.peak ∧ P s.trough))

/-- A tracking state used in examples: threshold 50000, a hump in progress with
peak 52000 recorded after a rising edge from 50000. -/
def humpState : BeatState :=
  { threshold := 50000, peak := 52000, trough := 50000, amp := 0, rising := true,
    lastSample := 52000, sampleCount := 1 }

/-- A tracking state used in examples: threshold 50000, no hump in progress, the
previous sample at the threshold. -/
def restState : BeatState :=
  { threshold := 50000, peak := 0, trough := 0, amp := 0, rising := false,
    lastSample := 50000, sampleCount := 1 }

/-! ## Floating point used by the estimator

The estimator mixes `float` (binary32) and `double` (binary64) arithmetic.  Every
floating-point value it computes is a quotient, product or difference of values
derived from non-negative integers, so it is modelled exactly: a finite value is a
fraction `num / den` of integers, and each operation is the exact rational operation
followed by IEEE-754 rounding to nearest, ties to even (`round32`, `round64`).  The
magnitudes that occur stay below `2^65` and, when non-zero, above `2^-65`, far inside
the exponent range of both formats; the only non-finite values are the results of
dividing by a zero AC sum, modelled by `Fl.nan` and `Fl.pinf`. -/

/-- A rational number `num / den` kept as an unnormalised pair. -/
structure Frac where
  num : Int
  den : Nat
  deriving DecidableEq, Repr

namespace Frac

/-- Embedding of an integer. -/
def ofInt (z : Int) : Frac := ⟨z, 1⟩

/-- Rational value of the pair. -/
def toRat (a : Frac) : ℚ := (a.num : ℚ) / (a.den : ℚ)

/-- Exact product. -/
def mul (a b : Frac) : Frac := ⟨a.num * b.num, a.den * b.den⟩

/-- Exact quotient (the divisor is non-zero wherever this is used). -/
def div (a b : Frac) : Frac := ⟨a.num * (b.den : Int) * Int.sign b.num, a.den * b.num.natAbs⟩

/-- Exact sum. -/
def add (a b : Frac) : Frac := ⟨a.num * (b.den : Int) + b.num * (a.den : Int), a.den * b.den⟩

/-- Exact difference. -/
def sub (a b : Frac) : Frac := ⟨a.num * (b.den : Int) - b.num * (a.den : Int), a.den * b.den⟩

/-- Strict comparison (denominators positive). -/
def lt (a b : Frac) : Bool := decide (a.num * (b.den : Int) < b.num * (a.den : Int))

end Frac

/-- Bit length minus one, by halving; the first argument bounds the number of steps. -/
def log2Aux : Nat → Nat → Nat
  | 0, _ => 0
  | fuel + 1, n => if n < 2 then 0 else log2Aux fuel (n / 2) + 1

/-- Floor of the binary logarithm of a positive natural number. -/
def ilog2 (n : Nat) : Nat := log2Aux n n

/-- Floor of the binary logarithm of `n / d` for positive `n` and `d`. -/
def floorLog2 (n d : Nat) : Int :=
  let e0 : Int := (ilog2 n : Int) - (ilog2 d : Int)
  if 0 ≤ e0 then (if d * 2 ^ e0.toNat ≤ n then e0 else e0 - 1)
  else (if d ≤ n * 2 ^ (-e0).toNat then e0 else e0 - 1)

/-- The integer nearest to `N / D`, the even one of the two when `N / D` lies half-way. -/
def nearestEven (N D : Nat) : Nat :=
  let f := N / D
  let r := N % D
  if 2 * r < D then f else if D < 2 * r then f + 1 else if f % 2 = 0 then f else f + 1

/-- Rounding of the non-negative rational `n / d` to the nearest binary floating-point
number with `p` significant bits and minimal normal exponent `emin`, ties to even:
with `e` the binary exponent of `n / d`, the result is the multiple of the unit
`2 ^ k`, `k = max e emin - (p - 1)`, nearest to `n / d`. -/
def roundNat (p : Nat) (emin : Int) (n d : Nat) : Frac :=
  if n = 0 then ⟨0, 1⟩ else
    let e := floorLog2 n d
    let k := if emin ≤ e then e - ((p : Int) - 1) else emin - ((p : Int) - 1)
    let N := if 0 ≤ k then n else n * 2 ^ (-k).toNat
    let D := if 0 ≤ k then d * 2 ^ k.toNat else d
    let m := nearestEven N D
    if 0 ≤ k then ⟨((m * 2 ^ k.toNat : Nat) : Int), 1⟩ else ⟨((m : Nat) : Int), 2 ^ (-k).toNat⟩

/-- Rounding of a rational to the given binary format (symmetric in the sign). -/
def roundFrac (p : Nat) (emin : Int) (a : Frac) : Frac :=
  let r := roundNat p emin a.num.natAbs a.den
  if a.num < 0 then ⟨-r.num, r.den⟩ else r

/-- Rounding to `float` (binary32). -/
def round32 (a : Frac) : Frac := roundFrac 24 (-126) a

/-- Rounding to `double` (binary64). -/
def round64 (a : Frac) : Frac := roundFrac 53 (-1022) a

/-- Conversion of a floating-point value to `int32_t`: truncation toward zero. -/
def truncI32 (a : Frac) : Int := wrap32 (Int.tdiv a.num (a.den : Int))

/-- A `float` value: NaN, plus infinity, or finite. -/
inductive Fl where
  | nan : Fl
  | pinf : Fl
  | fin (v : Frac) : Fl
  deriving DecidableEq, Repr

namespace Fl

/-- Quotient in `float` of two finite non-negative values: `0/0` is NaN, `x/0` is `+inf`. -/
def div32 (a b : Frac) : Fl :=
  if b.num = 0 then (if a.num = 0 then nan else pinf) else fin (round32 (a.div b))

/-- Comparison `x > c`; false for NaN. -/
def gt (x : Fl) (c : Frac) : Bool :=
  match x with
  | nan => false
  | pinf => true
  | fin v => c.lt v

/-- Comparison `x < c`; false for NaN and for plus infinity. -/
def lt (x : Fl) (c : Frac) : Bool :=
  match x with
  | nan => false
  | pinf => false
  | fin v => v.lt c

end Fl

/-- Bitwise integer square root: the first argument is the number of bits still to try. -/
def sqrtAux : Nat → Nat → Nat → Nat
  | 0, r, _ => r
  | b + 1, r, v =>
    if (r + 2 ^ b) * (r + 2 ^ b) ≤ v then sqrtAux b (r + 2 ^ b) v else sqrtAux b r v

/-- The value of `uint32_t stdDev = sqrt(variance)` for a 32-bit `variance`: the
correctly rounded `double` square root truncated to an integer, which is the integer
square root (a non-square `v < 2^32` has its root at least `2^-17` below the next
integer, so rounding to 53 bits cannot reach it). -/
def isqrt (v : Nat) : Nat := sqrtAux 16 0 v

/-! ## Windowed estimator (`maxim_heart_rate_and_oxygen_saturation`) -/

/-- Reduction to `uint32_t`. -/
def u32 (x : Nat) : Nat := x % 4294967296

/-- The cast `(int32_t)` of a `uint32_t`. -/
def toI32 (x : Nat) : Int := wrap32 (x : Int)

/-- The conversion of an `int32_t` to `uint32_t`. -/
def ofI32 (z : Int) : Nat := (z % 4294967296).toNat

/-- The four output cells `*pn_spo2`, `*pch_spo2_valid`, `*pn_heart_rate`,
`*pch_hr_valid`. -/
structure Outputs where
  spo2 : Int
  spo2_valid : Int
  heart_rate : Int
  hr_valid : Int
  deriving DecidableEq, Repr

/-- The loop `for (i = 0; i < n; i++) mean += buf[i];` on a `uint32_t` accumulator.
Reading past the end of the list (undefined in C) yields 0. -/
def sumU32 (buf : List Nat) (n : Nat) : Nat :=
  (List.range n).foldl (fun acc i => u32 (acc + buf.getD i 0)) 0

/-- The loop `for (i = 1; i < n; i++) ac += abs((int32_t)buf[i] - (int32_t)buf[i-1]);`
on a `uint32_t` accumulator. -/
def acSum (buf : List Nat) (n : Nat) : Nat :=
  (List.range' 1 (n - 1)).foldl
    (fun acc i =>
      let diff := wrap32 (toI32 (buf.getD i 0) - toI32 (buf.getD (i - 1) 0))
      u32 (acc + ofI32 (wrap32 (Int.natAbs diff : Int)))) 0

/-- The value of `float ratio = ((float)red_ac / red_mean) / ((float)ir_ac / ir_mean)`. -/
def acdcRatio (ir_ac ir_mean red_ac red_mean : Nat) : Fl :=
  Fl.div32
    (round32 ((round32 (Frac.ofInt red_ac)).div (round32 (Frac.ofInt red_mean))))
    (round32 ((round32 (Frac.ofInt ir_ac)).div (round32 (Frac.ofInt ir_mean))))

/-- The SpO2 block: the pair (`*pn_spo2`, `*pch_spo2_valid`) it leaves, both cells
holding 0 on entry. The constants `0.4` and `1.5` are `double` literals. -/
def spo2Block (ir_ac ir_mean red_ac red_mean : Nat) : Int × Int :=
  if 0 < ir_mean ∧ 0 < red_mean then
    let ratio := acdcRatio ir_ac ir_mean red_ac red_mean
    if ratio.gt (round64 ⟨2, 5⟩) = true ∧ ratio.lt (round64 ⟨3, 2⟩) = true then
      match ratio with
      | Fl.fin q =>
        let spo2 := truncI32 (round32 ((Frac.ofInt 110).sub (round32 ((Frac.ofInt 25).mul q))))
        if 70 ≤ spo2 ∧ spo2 ≤ 100 then (spo2, 1) else (spo2, 0)
      | _ => (0, 0)
    else (0, 0)
  else (0, 0)

/-- The loop computing `sumSqDiff` on a `uint32_t` accumulator, with `diff` and
`diff * diff` computed in `int32_t`. -/
def sumSqDiff (buf : List Nat) (n : Nat) (mean : Nat) : Nat :=
  (List.range n).foldl
    (fun acc i =>
      let diff := wrap32 (toI32 (buf.getD i 0) - toI32 mean)
      u32 (acc + ofI32 (wrap32 (diff * diff)))) 0

/-- The value of `uint32_t dynamicThreshold = ir_mean + stdDev * 0.5` (exact in
`double`, truncated, reduced to 32 bits). -/
def dynamicThreshold (buf : List Nat) (n : Nat) (mean : Nat) : Nat :=
  let variance := sumSqDiff buf n mean / n
  let stdDev := isqrt variance
  u32 ((2 * mean + stdDev) / 2)

/-- Locals of the peak loop: `peaks`, `lastPeakIndex` and the recorded
`peakIntervals` (`intervalCount` is the length of the list, at most 10). -/
structure PeakScan where
  peaks : Int
  lastPeakIndex : Int
  peakIntervals : List Int
  deriving DecidableEq, Repr

/-- Body of the peak loop at index `i`. The counter `peaks` and the difference
`i - lastPeakIndex` stay below the window length, an `int32_t`, so they are not
wrapped. -/
def peakStepAt (buf : List Nat) (thr : Nat) (st : PeakScan) (i : Nat) : PeakScan :=
  if buf.getD i 0 > buf.getD (i - 1) 0 ∧ buf.getD i 0 > buf.getD (i + 1) 0 ∧
      buf.getD i 0 > thr then
    { peaks := st.peaks + 1,
      lastPeakIndex := (i : Int),
      peakIntervals :=
        if 0 ≤ st.lastPeakIndex ∧ st.peakIntervals.length < 10 then
          st.peakIntervals ++ [(i : Int) - st.lastPeakIndex]
        else st.peakIntervals }
  else st

/-- The loop `for (i = 1; i < n - 1; i++)` detecting peaks. -/
def peakScan (buf : List Nat) (n : Nat) (thr : Nat) : PeakScan :=
  (List.range' 1 (n - 2)).foldl (peakStepAt buf thr)
    { peaks := 0, lastPeakIndex := -1, peakIntervals := [] }

/-- The value of `float timePerSample = 0.1;`. -/
def timePerSample : Frac := round32 (round64 ⟨1, 10⟩)

/-- Heart rate from the averaged peak interval:
`(int32_t)(60.0 / (avgInterval * timePerSample))`. -/
def hrFromIntervals (peakIntervals : List Int) : Int :=
  let sum := peakIntervals.foldl (fun acc d => wrap32 (acc + d)) 0
  let avgInterval := Int.tdiv sum (peakIntervals.length : Int)
  let intervalSeconds := round32 ((round32 (Frac.ofInt avgInterval)).mul timePerSample)
  truncI32 (round64 ((Frac.ofInt 60).div intervalSeconds))

/-- Heart rate from the peak count:
`(int32_t)((peaks / time_seconds) * 60)` with `float time_seconds = n * 0.1`. -/
def hrFromPeaks (peaks : Int) (n : Int) : Int :=
  let time_seconds := round32 (round64 ((Frac.ofInt n).mul (round64 ⟨1, 10⟩)))
  truncI32 (round32 ((round32 ((round32 (Frac.ofInt peaks)).div time_seconds)).mul
    (Frac.ofInt 60)))

/-- The heart-rate block: the pair (`*pn_heart_rate`, `*pch_hr_valid`) it leaves, both
cells holding 0 on entry. It reads the infrared buffer, its length and its mean. -/
def heartRateBlock (ir : List Nat) (n : Int) (ir_mean : Nat) : Int × Int :=
  let st := peakScan ir n.toNat (dynamicThreshold ir n.toNat ir_mean)
  if 2 ≤ st.peakIntervals.length then
    let hr := hrFromIntervals st.peakIntervals
    if 50 ≤ hr ∧ hr ≤ 200 then (hr, 1) else (hr, 0)
  else if 0 < st.peaks then
    let hr := hrFromPeaks st.peaks n
    if 50 ≤ hr ∧ hr ≤ 200 then (hr, 1) else (hr, 0)
  else (0, 0)

/-- The channel mean: the `uint32_t` sum of the first `n` samples divided (unsigned)
by `n`. -/
def windowMean (buf : List Nat) (n : Int) : Nat := sumU32 buf n.toNat / n.toNat

/-- The function `maxim_heart_rate_and_oxygen_saturation(pun_ir_buffer,
n_ir_buffer_length, pun_red_buffer, ...)`: the values left in the four output cells. -/
def maxim_heart_rate_and_oxygen_saturation (ir : List Nat) (n : Int) (red : List Nat) :
    Outputs :=
  if n < 25 then ⟨0, 0, 0, 0⟩
  else
    let ir_mean := windowMean ir n
    let red_mean := windowMean red n
    if ir_mean = 0 ∨ red_mean = 0 then ⟨0, 0, 0, 0⟩
    else
      let sp := spo2Block (acSum ir n.toNat) ir_mean (acSum red n.toNat) red_mean
      let hr := heartRateBlock ir n ir_mean
      ⟨sp.1, sp.2, hr.1, hr.2⟩

/-- Example infrared window of 25 samples: baseline 50000 with a pulse of 52000
every fifth sample (indices 2, 7, 12, 17, 22). -/
def pulseWindow : List Nat :=
  [50000, 50000, 52000, 50000, 50000, 50000, 50000, 52000, 50000, 50000,
   50000, 50000, 52000, 50000, 50000, 50000, 50000, 52000, 50000, 50000,
   50000, 50000, 52000, 50000, 50000]

/-- State invariant of the peak loop before index `i`: either no peak has been found,
or the last peak lies below `i`, the number of recorded intervals is
`min (peaks - 1) 10`, every recorded interval is at least 1 and their sum does not
exceed the index of the last peak. -/
def PeakInv (i : Nat) (st : PeakScan) : Prop :=
  (st.peaks = 0 ∧ st.lastPeakIndex = -1 ∧ st.peakIntervals = []) ∨
  (1 ≤ st.peaks ∧ 0 ≤ st.lastPeakIndex ∧ st.lastPeakIndex < (i : Int) ∧
    (st.peakIntervals.length : Int) = min (st.peaks - 1) 10 ∧
    (∀ d ∈ st.peakIntervals, 1 ≤ d) ∧ st.peakIntervals.sum ≤ st.lastPeakIndex)

/-- The floating-point part of the interval path for a given `avgInterval`:
`(int32_t)(60.0 / (avgInterval * timePerSample))`. -/
def hrFromAvg (avgInterval : Int) : Int :=
  truncI32 (round64 ((Frac.ofInt 60).div
    (round32 ((round32 (Frac.ofInt avgInterval)).mul timePerSample))))

/-- The divisors of 600. -/
def divisors600 : List Nat :=
  [1, 2, 3, 4, 5, 6, 8, 10, 12, 15, 20, 24, 25, 30, 40, 50, 60, 75, 100, 120, 150, 200,
   300, 600]

/-- Executable check that the interval-path value for the average `a` is `600 / a` or
one less. -/
def hrFromAvgNear (a : Nat) : Bool :=
  hrFromAvg a == 600 / (a : Int) || hrFromAvg a == 600 / (a : Int) - 1

/-- Example infrared window of 25 samples: baseline 50000 with a pulse of 52000 every
sixth sample (indices 2, 8, 14, 20). -/
def pulse6Window : List Nat :=
  [50000, 50000, 52000, 50000, 50000, 50000, 50000, 50000, 52000, 50000,
   50000, 50000, 50000, 50000, 52000, 50000, 50000, 50000, 50000, 50000,
   52000, 50000, 50000, 50000, 50000]

/-- Example infrared window of 25 samples: baseline 50000 with pulses of 52000 at
indices 2, 7, 13, 18 (intervals 5, 6, 5). -/
def pulse56Window : List Nat :=
  [50000, 50000, 52000, 50000, 50000, 50000, 50000, 52000, 50000, 50000,
   50000, 50000, 50000, 52000, 50000, 50000, 50000, 50000, 52000, 50000,
   50000, 50000, 50000, 50000, 50000]

/-- Example infrared window of 25 samples with two pulses (indices 5 and 15). -/
def twoPeakWindow : List Nat :=
  [50000, 50000, 50000, 50000, 50000, 52000, 50000, 50000, 50000, 50000,
   50000, 50000, 50000, 50000, 50000, 52000, 50000, 50000, 50000, 50000,
   50000, 50000, 50000, 50000, 50000]

/-- The value `(int32_t)(110 - 25 * ratio)` stored in `*pn_spo2` for a finite `ratio`. -/
def spo2FromRatio (q : Frac) : Int :=
  truncI32 (round32 ((Frac.ofInt 110).sub (round32 ((Frac.ofInt 25).mul q))))

/-- Example infrared window of 25 samples alternating between 50000 and 52000 (a
pulse at every odd index). -/
def alternatingWindow : List Nat :=
  [50000, 52000, 50000, 52000, 50000, 52000, 50000, 52000, 50000, 52000,
   50000, 52000, 50000, 52000, 50000, 52000, 50000, 52000, 50000, 52000,
   50000, 52000, 50000, 52000, 50000]

end MAX30102

/-! ## Humidity and temperature sensor (`DHT11::read`, `src/Bmduino/code/DHT-11/DHT11.h`) -/

namespace DHT11

open MAX30102

/-- The buffer `uint8_t data[5]` after a transfer. -/
structure Data where
  d0 : Nat
  d1 : Nat
  d2 : Nat
  d3 : Nat
  d4 : Nat
  deriving DecidableEq, Repr

/-- The value `(float)hi + (float)lo / 10.0` stored in a `float`: the quotient and the
sum are computed in `double`. -/
def decimal (hi lo : Nat) : Frac :=
  round32 (round64 ((round32 (Frac.ofInt hi)).add
    (round64 ((round32 (Frac.ofInt lo)).div (round64 ⟨10, 1⟩)))))

/-- The function `DHT11::read`. The bus transaction `readData(data)` is an input of the
model: `none` when it returned `false`, `some data` when it returned `true` leaving
`data` in the buffer. The result is `none` for `false` and, for `true`, the values
stored in `*humidity` and `*temperature`. -/
def read (readData : Option Data) : Option (Frac × Frac) :=
  match readData with
  | none => none
  | some data =>
    let checksum := (data.d0 + data.d1 + data.d2 + data.d3) % 256
    if checksum ≠ data.d4 then none
    else some (decimal data.d0 data.d1, decimal data.d2 data.d3)

end DHT11

namespace MAX30102

/-! # Theorems -/

/-! ## Block-by-block facts about `checkForBeat` -/

theorem seedStep_rising (s : BeatState) (x : Int) : (seedStep s x).rising = s.rising := by
  unfold seedStep; split_ifs <;> rfl

theorem seedStep_lastSample (s : BeatState) (x : Int) :
    (seedStep s x).lastSample = s.lastSample := by
  unfold seedStep; split_ifs <;> rfl

theorem seedStep_peak (s : BeatState) (x : Int) : (seedStep s x).peak = s.peak := by
  unfold seedStep; split_ifs <;> rfl

theorem seedStep_trough (s : BeatState) (x : Int) : (seedStep s x).trough = s.trough := by
  unfold seedStep; split_ifs <;> rfl

theorem seedStep_of_ne (s : BeatState) (x : Int) (h : s.threshold ≠ 0) : seedStep s x = s := by
  unfold seedStep; rw [if_neg h]

theorem seedStep_threshold_of_eq (s : BeatState) (x : Int) (h : s.threshold = 0) :
    (seedStep s x).threshold = x := by
  unfold seedStep; rw [if_pos h]

/-- The rising-edge block either fires (and records peak and trough) or is the identity. -/
theorem risingStep_cases (s : BeatState) (x : Int) :
    (x > s.threshold ∧ s.lastSample ≤ s.threshold ∧ s.rising = false ∧
      risingStep s x = { s with rising := true, peak := x, trough := s.lastSample }) ∨
    (¬ (x > s.threshold ∧ s.lastSample ≤ s.threshold ∧ s.rising = false) ∧
      risingStep s x = s) := by
  unfold risingStep
  by_cases h : x > s.threshold ∧ s.lastSample ≤ s.threshold ∧ s.rising = false
  · left; rw [if_pos h]; exact ⟨h.1, h.2.1, h.2.2, rfl⟩
  · right; rw [if_neg h]; exact ⟨h, rfl⟩

/-- The falling-edge block: accepted beat, rejected hump, or identity. -/
theorem fallingStep_cases (s : BeatState) (x : Int) :
    (x < s.threshold ∧ s.lastSample ≥ s.threshold ∧ s.rising = true ∧
      wrap32 (s.peak - s.trough) > 1000 ∧
      fallingStep s x =
        ({ s with rising := false, amp := wrap32 (s.peak - s.trough),
                  threshold := Int.tdiv (wrap32 (s.peak + s.trough)) 2 }, true)) ∨
    (x < s.threshold ∧ s.lastSample ≥ s.threshold ∧ s.rising = true ∧
      ¬ wrap32 (s.peak - s.trough) > 1000 ∧
      fallingStep s x = ({ s with rising := false, amp := wrap32 (s.peak - s.trough) }, false)) ∨
    (¬ (x < s.threshold ∧ s.lastSample ≥ s.threshold ∧ s.rising = true) ∧
      fallingStep s x = (s, false)) := by
  unfold fallingStep
  by_cases h : x < s.threshold ∧ s.lastSample ≥ s.threshold ∧ s.rising = true
  · rw [if_pos h]
    by_cases ha : wrap32 (s.peak - s.trough) > 1000
    · left; simp only [if_pos ha]; exact ⟨h.1, h.2.1, h.2.2, ha, trivial⟩
    · right; left; simp only [if_neg ha]; exact ⟨h.1, h.2.1, h.2.2, ha, trivial⟩
  · right; right; rw [if_neg h]; exact ⟨h, rfl⟩

theorem peakStep_rising (s : BeatState) (x : Int) : (peakStep s x).rising = s.rising := by
  unfold peakStep; split_ifs <;> rfl

theorem peakStep_threshold (s : BeatState) (x : Int) :
    (peakStep s x).threshold = s.threshold := by
  unfold peakStep; split_ifs <;> rfl

theorem peakStep_trough (s : BeatState) (x : Int) : (peakStep s x).trough = s.trough := by
  unfold peakStep; split_ifs <;> rfl

theorem troughStep_rising (s : BeatState) (x : Int) : (troughStep s x).rising = s.rising := by
  unfold troughStep; split_ifs <;> rfl

theorem troughStep_threshold (s : BeatState) (x : Int) :
    (troughStep s x).threshold = s.threshold := by
  unfold troughStep; split_ifs <;> rfl

theorem troughStep_peak (s : BeatState) (x : Int) : (troughStep s x).peak = s.peak := by
  unfold troughStep; split_ifs <;> rfl

/-- Outside warm-up the call is the composition of the five blocks. -/
theorem checkForBeat_tracking (s : BeatState) (x : Int)
    (h : ¬ (s.threshold = 0 ∧ s.sampleCount < 10)) :
    checkForBeat s x =
      ({ troughStep (peakStep (fallingStep (risingStep (seedStep s x) x) x).1 x) x with
          lastSample := x },
        (fallingStep (risingStep (seedStep s x) x) x).2) := by
  unfold checkForBeat; rw [if_neg h]

theorem checkForBeat_warmup (s : BeatState) (x : Int)
    (h : s.threshold = 0 ∧ s.sampleCount < 10) :
    checkForBeat s x = (warmupStep s x, false) := by
  unfold checkForBeat; rw [if_pos h]

/-- Every call stores the sample in `lastSample`. -/
theorem checkForBeat_lastSample (s : BeatState) (x : Int) :
    (checkForBeat s x).1.lastSample = x := by
  by_cases h : s.threshold = 0 ∧ s.sampleCount < 10
  · rw [checkForBeat_warmup s x h]; rfl
  · rw [checkForBeat_tracking s x h]

/-- A call that returns `true` found `rising` set on entry, saw the sample strictly
below `lastSample`, and leaves `rising` cleared. -/
theorem checkForBeat_true_rising (s : BeatState) (x : Int)
    (h : (checkForBeat s x).2 = true) :
    s.rising = true ∧ (checkForBeat s x).1.rising = false ∧ x < s.lastSample := by
  by_cases hw : s.threshold = 0 ∧ s.sampleCount < 10
  · rw [checkForBeat_warmup s x hw] at h; simp at h
  · rw [checkForBeat_tracking s x hw] at h ⊢
    simp only [troughStep_rising, peakStep_rising] at h ⊢
    rcases risingStep_cases (seedStep s x) x with ⟨h1, _, _, _⟩ | ⟨_, hr⟩
    · rcases fallingStep_cases (risingStep (seedStep s x) x) x with
        ⟨f1, _, _, _, _⟩ | ⟨_, _, _, _, hf⟩ | ⟨_, hf⟩
      · have : (risingStep (seedStep s x) x).threshold = (seedStep s x).threshold := by
          unfold risingStep; split_ifs <;> rfl
        omega
      · rw [hf] at h; simp at h
      · rw [hf] at h; simp at h
    · rw [hr] at h ⊢
      rcases fallingStep_cases (seedStep s x) x with
        ⟨f1, f2, f3, _, hf⟩ | ⟨_, _, _, _, hf⟩ | ⟨_, hf⟩
      · rw [hf]
        rw [seedStep_rising] at f3
        rw [seedStep_lastSample] at f2
        exact ⟨f3, rfl, by omega⟩
      · rw [hf] at h; simp at h
      · rw [hf] at h; simp at h

theorem feed_append (s : BeatState) (a b : List Int) :
    feed s (a ++ b) = feed (feed s a) b := by
  induction a generalizing s with
  | nil => rfl
  | cons x a ih => simp [feed, ih]

theorem stateBefore_succ (s : BeatState) (xs : List Int) (k : Nat) (hk : k < xs.length) :
    stateBefore s xs (k + 1) = (checkForBeat (stateBefore s xs k) xs[k]).1 := by
  unfold stateBefore
  rw [List.take_succ, feed_append]
  simp [List.getElem?_eq_getElem hk, feed]

theorem beatAt_true (s : BeatState) (xs : List Int) (k : Nat) (h : beatAt s xs k = true) :
    ∃ hk : k < xs.length, (checkForBeat (stateBefore s xs k) xs[k]).2 = true := by
  unfold beatAt at h
  by_cases hk : k < xs.length
  · refine ⟨hk, ?_⟩
    simpa [List.getElem?_eq_getElem hk] using h
  · simp [List.getElem?_eq_none (Nat.le_of_not_lt hk)] at h

theorem bool_step_up (f : Nat → Bool) (a : Nat) :
    ∀ d : Nat, f a = false → f (a + d) = true →
      ∃ k, a ≤ k ∧ k < a + d ∧ f k = false ∧ f (k + 1) = true := by
  intro d
  induction d with
  | zero => intro h0 h1; simp [h0] at h1
  | succ d ih =>
    intro h0 h1
    cases hd : f (a + d) with
    | true =>
      obtain ⟨k, h1k, h2k, h3k⟩ := ih h0 hd
      exact ⟨k, h1k, by omega, h3k⟩
    | false => exact ⟨a + d, by omega, by omega, hd, h1⟩

/-! ## Warm-up (C1, C2) -/

/-- C1 (code evaluated at the failing input): from the initial statics the calls
`checkForBeat(50000)`, `checkForBeat(52000)`, `checkForBeat(49000)` return
`false, false, true`; the third call, well inside the first ten, reports a beat. -/
theorem C1_beat_on_third_call :
    beats initState [50000, 52000, 49000] = [false, false, true] := by
  decide

/-- C2 (code evaluated at the failing input): after ten calls with the samples
`50000, 50010, ..., 50090` the threshold is `50000` (the first sample), while the
sum of the ten samples divided by ten is `50045`. -/
theorem C2_threshold_after_ten_calls :
    (feed initState [50000, 50010, 50020, 50030, 50040, 50050, 50060, 50070, 50080,
        50090]).threshold = 50000 ∧
      Int.tdiv (50000 + 50010 + 50020 + 50030 + 50040 + 50050 + 50060 + 50070 + 50080
        + 50090) 10 = 50045 ∧
      (feed initState [50000, 50010, 50020, 50030, 50040, 50050, 50060, 50070, 50080,
        50090]).sampleCount = 1 := by
  decide

/-! ## One beat per rising edge (C3) -/

/-- C3: for every detector state and sample sequence, (1) a call returns `true`
only if `rising` was set on entry, and such a call leaves `rising` cleared;
(2) no two consecutive calls both return `true`; (3) between any two calls that
return `true` there is a call that switches `rising` from `false` to `true`. -/
theorem C3_one_beat_per_rising_edge (s : BeatState) (xs : List Int) :
    (∀ x : Int, (checkForBeat s x).2 = true →
        s.rising = true ∧ (checkForBeat s x).1.rising = false) ∧
    (∀ i : Nat, ¬ (beatAt s xs i = true ∧ beatAt s xs (i + 1) = true)) ∧
    (∀ i j : Nat, i < j → beatAt s xs i = true → beatAt s xs j = true →
        ∃ k, i < k ∧ k < j ∧ (stateBefore s xs k).rising = false ∧
          (stateBefore s xs (k + 1)).rising = true) := by
  have key : ∀ i j : Nat, i < j → beatAt s xs i = true → beatAt s xs j = true →
      ∃ k, i < k ∧ k < j ∧ (stateBefore s xs k).rising = false ∧
        (stateBefore s xs (k + 1)).rising = true := by
    intro i j hij hi hj
    obtain ⟨hil, hbi⟩ := beatAt_true s xs i hi
    obtain ⟨hjl, hbj⟩ := beatAt_true s xs j hj
    have h0 : (stateBefore s xs (i + 1)).rising = false := by
      rw [stateBefore_succ s xs i hil]
      exact (checkForBeat_true_rising _ _ hbi).2.1
    have h1 : (stateBefore s xs (i + 1 + (j - (i + 1)))).rising = true := by
      have : i + 1 + (j - (i + 1)) = j := by omega
      rw [this]
      exact (checkForBeat_true_rising _ _ hbj).1
    obtain ⟨k, hk1, hk2, hk3, hk4⟩ :=
      bool_step_up (fun n => (stateBefore s xs n).rising) (i + 1) (j - (i + 1)) h0 h1
    exact ⟨k, by omega, by omega, hk3, hk4⟩
  refine ⟨fun x hx => ⟨(checkForBeat_true_rising s x hx).1,
    (checkForBeat_true_rising s x hx).2.1⟩, ?_, key⟩
  rintro i ⟨hi, hj⟩
  obtain ⟨k, hk1, hk2, _⟩ := key i (i + 1) (Nat.lt_succ_self i) hi hj
  omega

/-- Witness for C3: the samples `50000, 52000, 49000, 52000, 49000` from the
initial statics give beats at calls 2 and 4 with a rising edge at call 3. -/
theorem C3_one_beat_per_rising_edge_witness :
    beatAt initState [50000, 52000, 49000, 52000, 49000] 2 = true ∧
    beatAt initState [50000, 52000, 49000, 52000, 49000] 4 = true ∧
    ∃ k, 2 < k ∧ k < 4 ∧
      (stateBefore initState [50000, 52000, 49000, 52000, 49000] k).rising = false ∧
      (stateBefore initState [50000, 52000, 49000, 52000, 49000] (k + 1)).rising = true :=
  ⟨by decide, by decide,
    (C3_one_beat_per_rising_edge initState [50000, 52000, 49000, 52000, 49000]).2.2 2 4
      (by decide) (by decide) (by decide)⟩

/-! ## Step facts used for ramps (C4, C5, C6) -/

theorem wrap32_of_fits (z : Int) (h : fits32 z) : wrap32 z = z := by
  unfold fits32 at h
  unfold wrap32
  omega

theorem peakStep_amp (s : BeatState) (x : Int) : (peakStep s x).amp = s.amp := by
  unfold peakStep; split_ifs <;> rfl

theorem troughStep_amp (s : BeatState) (x : Int) : (troughStep s x).amp = s.amp := by
  unfold troughStep; split_ifs <;> rfl

theorem risingStep_threshold (s : BeatState) (x : Int) :
    (risingStep s x).threshold = s.threshold := by
  unfold risingStep; split_ifs <;> rfl

/-- With a non-zero threshold the warm-up and seeding blocks are skipped. -/
theorem checkForBeat_of_ne (s : BeatState) (x : Int) (h : s.threshold ≠ 0) :
    checkForBeat s x =
      ({ troughStep (peakStep (fallingStep (risingStep s x) x).1 x) x with lastSample := x },
        (fallingStep (risingStep s x) x).2) := by
  rw [checkForBeat_tracking s x (fun hc => h hc.1), seedStep_of_ne s x h]

theorem no_beat_of_not_rising (s : BeatState) (x : Int) (h : s.rising = false) :
    (checkForBeat s x).2 = false := by
  cases hb : (checkForBeat s x).2 with
  | false => rfl
  | true => have := (checkForBeat_true_rising s x hb).1; simp [h] at this

theorem no_beat_of_ge (s : BeatState) (x : Int) (h : s.lastSample ≤ x) :
    (checkForBeat s x).2 = false := by
  cases hb : (checkForBeat s x).2 with
  | false => rfl
  | true => have := (checkForBeat_true_rising s x hb).2.2; omega

/-- No rising edge is detected on a sample that does not exceed the previous one. -/
theorem rising_stays_false (s : BeatState) (x : Int) (h : s.rising = false)
    (hx : x ≤ s.lastSample) : (checkForBeat s x).1.rising = false := by
  by_cases hw : s.threshold = 0 ∧ s.sampleCount < 10
  · rw [checkForBeat_warmup s x hw]; exact h
  · rw [checkForBeat_tracking s x hw]
    simp only [troughStep_rising, peakStep_rising]
    rcases risingStep_cases (seedStep s x) x with ⟨h1, h2, _, _⟩ | ⟨_, hr⟩
    · rw [seedStep_lastSample] at h2; omega
    · rw [hr]
      rcases fallingStep_cases (seedStep s x) x with
        ⟨_, _, f3, _, _⟩ | ⟨_, _, f3, _, _⟩ | ⟨_, hf⟩
      · rw [seedStep_rising, h] at f3; simp at f3
      · rw [seedStep_rising, h] at f3; simp at f3
      · rw [hf]; rw [seedStep_rising]; exact h

theorem countBeats_cons (s : BeatState) (x : Int) (xs : List Int) :
    countBeats s (x :: xs) =
      (if (checkForBeat s x).2 = true then 1 else 0) + countBeats (checkForBeat s x).1 xs := by
  unfold countBeats
  simp only [beats]
  cases (checkForBeat s x).2 <;> simp [List.count_cons, Nat.add_comm]

theorem countBeats_nil (s : BeatState) : countBeats s [] = 0 := rfl

/-! ## Threshold moves only on an accepted beat (C6) -/

/-- C6: for every detector state with non-zero threshold on entry and every sample:
a call that returns `false` leaves the threshold unchanged; a call that returns
`true` happened at a falling edge (`rising` set, sample below threshold, previous
sample not below it), recorded `amp = peak - trough` (as `int32_t`) with
`amp > 1000`, and set the threshold to `(peak + trough) / 2` (as `int32_t`, C
division) of the peak and trough held on entry; when `peak - trough` and
`peak + trough` fit in `int32_t` these are the exact integer values. -/
theorem C6_threshold_recentred_only_on_beat (s : BeatState) (x : Int)
    (h : s.threshold ≠ 0) :
    ((checkForBeat s x).2 = false → (checkForBeat s x).1.threshold = s.threshold) ∧
    ((checkForBeat s x).2 = true →
      s.rising = true ∧ x < s.threshold ∧ s.threshold ≤ s.lastSample ∧
      (checkForBeat s x).1.amp = wrap32 (s.peak - s.trough) ∧
      (checkForBeat s x).1.amp > 1000 ∧
      (checkForBeat s x).1.threshold = Int.tdiv (wrap32 (s.peak + s.trough)) 2 ∧
      (fits32 (s.peak - s.trough) → fits32 (s.peak + s.trough) →
        s.peak - s.trough > 1000 ∧
        (checkForBeat s x).1.threshold = Int.tdiv (s.peak + s.trough) 2)) := by
  rw [checkForBeat_of_ne s x h]
  simp only [troughStep_threshold, peakStep_threshold, troughStep_amp, peakStep_amp]
  rcases risingStep_cases s x with ⟨h1, _, _, _⟩ | ⟨_, hr⟩
  · rcases fallingStep_cases (risingStep s x) x with
      ⟨f1, _, _, _, _⟩ | ⟨_, _, _, _, hf⟩ | ⟨_, hf⟩
    · rw [risingStep_threshold] at f1; omega
    · rw [hf]; simp [risingStep_threshold]
    · rw [hf]; simp [risingStep_threshold]
  · rw [hr]
    rcases fallingStep_cases s x with ⟨f1, f2, f3, f4, hf⟩ | ⟨_, _, _, _, hf⟩ | ⟨_, hf⟩
    · rw [hf]
      refine ⟨fun hc => by simp at hc, fun _ => ⟨f3, f1, f2, rfl, f4, rfl, ?_⟩⟩
      intro hd hs
      rw [wrap32_of_fits _ hd] at f4
      exact ⟨f4, by simp only [wrap32_of_fits _ hs]⟩
    · rw [hf]; simp
    · rw [hf]; simp

/-- Witness for C6: threshold 50000, rising with peak 52000 and trough 50000,
sample 49000: the call returns `true`, amplitude 2000, new threshold 51000. -/
theorem C6_threshold_recentred_only_on_beat_witness :
    humpState.threshold ≠ 0 ∧ (checkForBeat humpState 49000).2 = true ∧
      humpState.peak - humpState.trough > 1000 ∧
      (checkForBeat humpState 49000).1.threshold =
        Int.tdiv (humpState.peak + humpState.trough) 2 :=
  ⟨by decide, by decide,
    ((C6_threshold_recentred_only_on_beat humpState 49000 (by decide)).2
      (by decide)).2.2.2.2.2.2 (by decide) (by decide)⟩

theorem countBeats_append (s : BeatState) (a b : List Int) :
    countBeats s (a ++ b) = countBeats s a + countBeats (feed s a) b := by
  induction a generalizing s with
  | nil => simp [countBeats_nil, feed]
  | cons x a ih => simp only [List.cons_append, countBeats_cons, ih, feed]; omega

/-! ## Small humps are rejected (C5) -/

theorem samplesOnly_step (P : Int → Prop) (s : BeatState) (x : Int)
    (hP : ∀ a b, P a → P b → a - b ≤ 1000) (hs : SamplesOnly P s) (hx : P x) :
    (checkForBeat s x).2 = false ∧ SamplesOnly P (checkForBeat s x).1 := by
  by_cases hw : s.threshold = 0 ∧ s.sampleCount < 10
  · rw [checkForBeat_warmup s x hw]
    refine ⟨rfl, Or.inr ⟨hx, ?_⟩⟩
    rcases hs with ⟨h1, _⟩ | ⟨_, h2⟩
    · intro hr; change s.rising = true at hr; rw [h1] at hr; simp at hr
    · exact h2
  · have hs2 : P s.lastSample ∧ (s.rising = true → P s.peak ∧ P s.trough) := by
      rcases hs with ⟨_, h2, h3⟩ | h
      · exact absurd ⟨h2, h3⟩ hw
      · exact h
    rw [checkForBeat_tracking s x hw]
    have inv2 : P (risingStep (seedStep s x) x).lastSample ∧
        ((risingStep (seedStep s x) x).rising = true →
          P (risingStep (seedStep s x) x).peak ∧ P (risingStep (seedStep s x) x).trough) := by
      rcases risingStep_cases (seedStep s x) x with ⟨_, _, _, hr⟩ | ⟨_, hr⟩
      · rw [hr]; simp only [seedStep_lastSample]
        exact ⟨hs2.1, fun _ => ⟨hx, hs2.1⟩⟩
      · rw [hr]; simp only [seedStep_lastSample, seedStep_rising, seedStep_peak,
          seedStep_trough]
        exact hs2
    generalize risingStep (seedStep s x) x = s2 at inv2
    have key : (fallingStep s2 x).2 = false ∧
        ((fallingStep s2 x).1.rising = true →
          P (fallingStep s2 x).1.peak ∧ P (fallingStep s2 x).1.trough) := by
      rcases fallingStep_cases s2 x with ⟨_, _, f3, f4, _⟩ | ⟨_, _, _, _, hf⟩ | ⟨_, hf⟩
      · have hb := inv2.2 f3
        have h1 := hP _ _ hb.1 hb.2
        have h2 := hP _ _ hb.2 hb.1
        rw [wrap32_of_fits _ (by unfold fits32; omega)] at f4
        omega
      · rw [hf]; exact ⟨rfl, fun hc => by simp at hc⟩
      · rw [hf]; exact ⟨rfl, inv2.2⟩
    refine ⟨key.1, Or.inr ⟨hx, ?_⟩⟩
    generalize (fallingStep s2 x).1 = s3 at key
    intro hr
    change (troughStep (peakStep s3 x) x).rising = true at hr
    change P (troughStep (peakStep s3 x) x).peak ∧ P (troughStep (peakStep s3 x) x).trough
    rw [troughStep_rising, peakStep_rising] at hr
    have hpt := key.2 hr
    rw [troughStep_peak]
    have ht : (troughStep (peakStep s3 x) x).trough = s3.trough := by
      unfold troughStep
      rw [if_neg (by rw [peakStep_rising, hr]; simp), peakStep_trough]
    rw [ht]
    refine ⟨?_, hpt.2⟩
    unfold peakStep
    split_ifs
    · exact hx
    · exact hpt.1

/-- A run whose samples pairwise differ by at most 1000 never reports a beat,
whatever its shape. -/
theorem countBeats_small_span (P : Int → Prop) (hP : ∀ a b, P a → P b → a - b ≤ 1000)
    (xs : List Int) : ∀ s : BeatState, SamplesOnly P s → (∀ x ∈ xs, P x) →
      countBeats s xs = 0 := by
  induction xs with
  | nil => intro s _ _; rfl
  | cons x xs ih =>
    intro s hs hx
    obtain ⟨h1, h2⟩ := samplesOnly_step P s x hP hs (hx x (List.mem_cons_self x xs))
    rw [countBeats_cons, h1, ih _ h2 (fun y hy => hx y (List.mem_cons_of_mem x hy))]
    simp

/-- C5: for every increasing-then-decreasing sequence of 18-bit samples whose
maximum minus minimum is at most 1000 (any two samples differ by at most 1000),
feeding it to `checkForBeat` from the initial state never returns `true`.
(`countBeats_small_span` shows that neither the shape nor the 18-bit range is
needed for this.) -/
theorem C5_small_ramp_no_beat (xs : List Int) (_hshape : incThenDec xs = true)
    (_h18 : ∀ x ∈ xs, is18 x) (hspan : ∀ a ∈ xs, ∀ b ∈ xs, a - b ≤ 1000) :
    countBeats initState xs = 0 ∧ ∀ k : Nat, beatAt initState xs k = false := by
  have h0 : ∀ ys : List Int, (∀ y ∈ ys, y ∈ xs) → countBeats initState ys = 0 :=
    fun ys hys => countBeats_small_span (fun x => x ∈ xs) (fun a b ha hb => hspan a ha b hb) ys
      initState (Or.inl ⟨rfl, rfl, by decide⟩) hys
  refine ⟨h0 xs (fun y hy => hy), ?_⟩
  intro k
  cases hb : beatAt initState xs k with
  | false => rfl
  | true =>
    exfalso
    obtain ⟨hk, hbk⟩ := beatAt_true initState xs k hb
    have h1 := h0 (xs.take (k + 1)) (fun y hy => List.mem_of_mem_take hy)
    rw [List.take_succ, List.getElem?_eq_getElem hk] at h1
    have h2 := countBeats_append initState (xs.take k) [xs[k]]
    simp only [Option.toList] at h1
    rw [h2, countBeats_cons, countBeats_nil] at h1
    unfold stateBefore at hbk
    rw [hbk] at h1
    simp at h1

/-- Witness for C5: the ramp `50000, 50400, 50900, 50300, 49950` (span 950). -/
theorem C5_small_ramp_no_beat_witness :
    incThenDec [50000, 50400, 50900, 50300, 49950] = true ∧
      countBeats initState [50000, 50400, 50900, 50300, 49950] = 0 :=
  ⟨by decide,
    (C5_small_ramp_no_beat [50000, 50400, 50900, 50300, 49950] (by decide) (by decide)
      (by decide)).1⟩

/-! ## Ramps: at most one beat (C4) -/

theorem strictlyDecreasing_cons (a b : Int) (t : List Int) :
    strictlyDecreasing (a :: b :: t) = true ↔ b < a ∧ strictlyDecreasing (b :: t) = true := by
  simp [strictlyDecreasing]

theorem strictlyDecreasing_tail (a : Int) (l : List Int)
    (h : strictlyDecreasing (a :: l) = true) : strictlyDecreasing l = true := by
  cases l with
  | nil => rfl
  | cons b t => exact ((strictlyDecreasing_cons a b t).1 h).2

theorem strictlyDecreasing_lt_head (l : List Int) :
    ∀ a : Int, strictlyDecreasing (a :: l) = true → ∀ y ∈ l, y < a := by
  induction l with
  | nil => intro a _ y hy; simp at hy
  | cons b t ih =>
    intro a h y hy
    obtain ⟨h1, h2⟩ := (strictlyDecreasing_cons a b t).1 h
    rcases List.mem_cons.1 hy with rfl | hy
    · exact h1
    · exact lt_trans (ih b h2 y hy) h1

theorem incThenDec_cons_lt (a b : Int) (t : List Int) (h : a < b) :
    incThenDec (a :: b :: t) = incThenDec (b :: t) := by
  simp [incThenDec, h]

theorem incThenDec_cons_ge (a b : Int) (t : List Int) (h : ¬ a < b) :
    incThenDec (a :: b :: t) = strictlyDecreasing (a :: b :: t) := by
  simp [incThenDec, h]

theorem incThenDec_of_strictlyDecreasing (l : List Int) :
    strictlyDecreasing l = true → incThenDec l = true := by
  induction l with
  | nil => intro _; rfl
  | cons a t ih =>
    intro h
    cases t with
    | nil => rfl
    | cons b t =>
      have hab := ((strictlyDecreasing_cons a b t).1 h).1
      rw [incThenDec_cons_ge a b t (by omega)]
      exact h

theorem incThenDec_tail (a : Int) (l : List Int) (h : incThenDec (a :: l) = true) :
    incThenDec l = true := by
  cases l with
  | nil => rfl
  | cons b t =>
    by_cases hab : a < b
    · rw [incThenDec_cons_lt a b t hab] at h; exact h
    · rw [incThenDec_cons_ge a b t hab] at h
      exact incThenDec_of_strictlyDecreasing _ (strictlyDecreasing_tail a _ h)

/-- Once `rising` is cleared, a strictly decreasing continuation yields no beat. -/
theorem countBeats_decreasing_not_rising (xs : List Int) :
    ∀ s : BeatState, strictlyDecreasing (s.lastSample :: xs) = true → s.rising = false →
      countBeats s xs = 0 := by
  induction xs with
  | nil => intro s _ _; rfl
  | cons x xs ih =>
    intro s hd hr
    obtain ⟨h1, h2⟩ := (strictlyDecreasing_cons _ x xs).1 hd
    rw [countBeats_cons, no_beat_of_not_rising s x hr]
    have := ih (checkForBeat s x).1 (by rw [checkForBeat_lastSample]; exact h2)
      (rising_stays_false s x hr (le_of_lt h1))
    rw [this]; simp

/-- A strictly decreasing continuation yields at most one beat. -/
theorem countBeats_decreasing_le_one (xs : List Int) :
    ∀ s : BeatState, strictlyDecreasing (s.lastSample :: xs) = true →
      countBeats s xs ≤ 1 := by
  induction xs with
  | nil => intro s _; simp [countBeats_nil]
  | cons x xs ih =>
    intro s hd
    obtain ⟨_, h2⟩ := (strictlyDecreasing_cons _ x xs).1 hd
    have hd2 : strictlyDecreasing ((checkForBeat s x).1.lastSample :: xs) = true := by
      rw [checkForBeat_lastSample]; exact h2
    rw [countBeats_cons]
    cases hb : (checkForBeat s x).2 with
    | false => simpa using ih _ hd2
    | true =>
      rw [countBeats_decreasing_not_rising xs _ hd2 (checkForBeat_true_rising s x hb).2.1]
      simp

/-- A continuation that rises and then falls yields at most one beat. -/
theorem countBeats_incThenDec_le_one (xs : List Int) :
    ∀ s : BeatState, incThenDec (s.lastSample :: xs) = true → countBeats s xs ≤ 1 := by
  induction xs with
  | nil => intro s _; simp [countBeats_nil]
  | cons x xs ih =>
    intro s hd
    by_cases hlt : s.lastSample < x
    · rw [incThenDec_cons_lt _ x xs hlt] at hd
      rw [countBeats_cons, no_beat_of_ge s x (le_of_lt hlt)]
      simpa using ih (checkForBeat s x).1 (by rw [checkForBeat_lastSample]; exact hd)
    · rw [incThenDec_cons_ge _ x xs hlt] at hd
      exact countBeats_decreasing_le_one _ s hd

/-- From the initial statics a rise-then-fall sequence yields at most one beat. -/
theorem countBeats_init_ramp_le_one (xs : List Int) (h : incThenDec xs = true) :
    countBeats initState xs ≤ 1 := by
  cases xs with
  | nil => simp [countBeats_nil]
  | cons x xs =>
    rw [countBeats_cons, no_beat_of_not_rising initState x rfl]
    simpa using countBeats_incThenDec_le_one xs (checkForBeat initState x).1
      (by rw [checkForBeat_lastSample]; exact h)

/-! ## Ramps through the threshold: exactly one beat (C4) -/

/-- Tracking, not rising, sample at or below the threshold: nothing fires. -/
theorem step_below (s : BeatState) (x : Int) (ht : s.threshold ≠ 0)
    (hr : s.rising = false) (hx : x ≤ s.threshold) :
    (checkForBeat s x).2 = false ∧ (checkForBeat s x).1.threshold = s.threshold ∧
      (checkForBeat s x).1.rising = false ∧ (checkForBeat s x).1.lastSample = x := by
  rw [checkForBeat_of_ne s x ht]
  simp only [troughStep_threshold, peakStep_threshold, troughStep_rising, peakStep_rising]
  rcases risingStep_cases s x with ⟨h1, _, _, _⟩ | ⟨_, h2⟩
  · omega
  · rw [h2]
    rcases fallingStep_cases s x with ⟨_, _, f3, _, _⟩ | ⟨_, _, f3, _, _⟩ | ⟨_, hf⟩
    · rw [hr] at f3; simp at f3
    · rw [hr] at f3; simp at f3
    · rw [hf]; exact ⟨rfl, rfl, hr, trivial⟩

/-- Tracking, not rising, previous sample at or below the threshold and the sample
above it: the rising edge is recorded. -/
theorem step_cross_up (s : BeatState) (x : Int) (ht : s.threshold ≠ 0)
    (hr : s.rising = false) (hl : s.lastSample ≤ s.threshold) (hx : s.threshold < x) :
    (checkForBeat s x).2 = false ∧ (checkForBeat s x).1.threshold = s.threshold ∧
      (checkForBeat s x).1.rising = true ∧ (checkForBeat s x).1.lastSample = x ∧
      (checkForBeat s x).1.peak = x ∧ (checkForBeat s x).1.trough = s.lastSample := by
  rw [checkForBeat_of_ne s x ht]
  simp only [troughStep_threshold, peakStep_threshold, troughStep_rising, peakStep_rising,
    troughStep_peak]
  rcases risingStep_cases s x with ⟨_, _, _, h1⟩ | ⟨h2, _⟩
  · rw [h1]
    rcases fallingStep_cases
        { s with rising := true, peak := x, trough := s.lastSample } x with
      ⟨f1, _, _, _, _⟩ | ⟨f1, _, _, _, _⟩ | ⟨_, hf⟩
    · change x < s.threshold at f1; omega
    · change x < s.threshold at f1; omega
    · rw [hf]
      refine ⟨rfl, rfl, rfl, trivial, ?_, ?_⟩
      · unfold peakStep; simp
      · unfold troughStep; rw [if_neg (by rw [peakStep_rising]; simp), peakStep_trough]
  · exact absurd ⟨hx, hl, hr⟩ h2

/-- Tracking, rising, sample not below the threshold: the hump continues. -/
theorem step_hold (s : BeatState) (x : Int) (ht : s.threshold ≠ 0)
    (hr : s.rising = true) (hx : s.threshold ≤ x) :
    (checkForBeat s x).2 = false ∧ (checkForBeat s x).1.threshold = s.threshold ∧
      (checkForBeat s x).1.rising = true ∧ (checkForBeat s x).1.lastSample = x ∧
      (checkForBeat s x).1.peak = max s.peak x ∧
      (checkForBeat s x).1.trough = s.trough := by
  rw [checkForBeat_of_ne s x ht]
  simp only [troughStep_threshold, peakStep_threshold, troughStep_rising, peakStep_rising,
    troughStep_peak]
  rcases risingStep_cases s x with ⟨_, _, h1, _⟩ | ⟨_, h2⟩
  · rw [hr] at h1; simp at h1
  · rw [h2]
    rcases fallingStep_cases s x with ⟨f1, _, _, _, _⟩ | ⟨f1, _, _, _, _⟩ | ⟨_, hf⟩
    · omega
    · omega
    · rw [hf]
      refine ⟨rfl, rfl, hr, trivial, ?_, ?_⟩
      · unfold peakStep
        dsimp only
        by_cases hp : x > s.peak
        · rw [if_pos ⟨hr, hp⟩]; exact (max_eq_right (le_of_lt hp)).symm
        · rw [if_neg (fun hc => hp hc.2)]; exact (max_eq_left (by omega)).symm
      · unfold troughStep; rw [if_neg (by rw [peakStep_rising, hr]; simp), peakStep_trough]

/-- Tracking, rising, sample below the threshold after one not below it, with a
recorded amplitude above 1000: the call returns `true` and clears `rising`. -/
theorem step_fall (s : BeatState) (x : Int) (ht : s.threshold ≠ 0)
    (hr : s.rising = true) (hx : x < s.threshold) (hl : s.threshold ≤ s.lastSample)
    (ha : wrap32 (s.peak - s.trough) > 1000) :
    (checkForBeat s x).2 = true ∧ (checkForBeat s x).1.rising = false := by
  rw [checkForBeat_of_ne s x ht]
  simp only [troughStep_rising, peakStep_rising]
  rcases risingStep_cases s x with ⟨_, _, h1, _⟩ | ⟨_, h2⟩
  · rw [hr] at h1; simp at h1
  · rw [h2]
    rcases fallingStep_cases s x with ⟨_, _, _, _, hf⟩ | ⟨_, _, _, f4, _⟩ | ⟨f, _⟩
    · rw [hf]; exact ⟨rfl, rfl⟩
    · exact absurd ha f4
    · exact absurd ⟨hx, hl, hr⟩ f

/-- Falling part of a hump whose recorded amplitude exceeds 1000: exactly one beat
as soon as some sample drops below the threshold. -/
theorem countBeats_down (down : List Int) :
    ∀ s : BeatState, s.threshold ≠ 0 → s.rising = true → s.threshold ≤ s.lastSample →
      s.lastSample ≤ s.peak → wrap32 (s.peak - s.trough) > 1000 →
      strictlyDecreasing (s.lastSample :: down) = true →
      (∃ x ∈ down, x < s.threshold) → countBeats s down = 1 := by
  induction down with
  | nil => intro s _ _ _ _ _ _ hex; obtain ⟨x, hx, _⟩ := hex; simp at hx
  | cons x down ih =>
    intro s ht hr hl hp ha hd hex
    obtain ⟨h1, h2⟩ := (strictlyDecreasing_cons _ x down).1 hd
    have hd2 : strictlyDecreasing ((checkForBeat s x).1.lastSample :: down) = true := by
      rw [checkForBeat_lastSample]; exact h2
    rw [countBeats_cons]
    by_cases hx : x < s.threshold
    · obtain ⟨hb, hr2⟩ := step_fall s x ht hr hx hl ha
      rw [hb, countBeats_decreasing_not_rising down _ hd2 hr2]
      simp
    · obtain ⟨hb, e1, e2, e3, e4, e5⟩ := step_hold s x ht hr (by omega)
      rw [hb]
      have hmax : max s.peak x = s.peak := max_eq_left (by omega)
      have := ih (checkForBeat s x).1 (by rw [e1]; exact ht) e2 (by rw [e1, e3]; omega)
        (by rw [e3, e4, hmax]; omega) (by rw [e4, e5, hmax]; exact ha) hd2
        (by
          obtain ⟨y, hy, hyt⟩ := hex
          rcases List.mem_cons.1 hy with rfl | hy
          · exact absurd hyt hx
          · exact ⟨y, hy, by rw [e1]; exact hyt⟩)
      rw [this]; simp

theorem wrap32_amp_gt (p t thr : Int) (hp : is18 p) (ht0 : 0 ≤ t) (ht : t ≤ thr)
    (h : thr + 1000 < p) : wrap32 (p - t) > 1000 := by
  unfold is18 at hp
  rw [wrap32_of_fits _ (by unfold fits32; omega)]
  omega

/-- A hump in progress (rising edge already recorded, `peak` following the samples):
if the samples go on rising and then fall, reach more than 1000 above the threshold
and end below it, exactly one beat is reported. -/
theorem countBeats_up (xs : List Int) :
    ∀ s : BeatState, s.threshold ≠ 0 → s.rising = true → s.peak = s.lastSample →
      s.threshold < s.lastSample → is18 s.lastSample → 0 ≤ s.trough →
      s.trough ≤ s.threshold → (∀ x ∈ xs, is18 x) →
      incThenDec (s.lastSample :: xs) = true →
      (s.threshold + 1000 < s.peak ∨ ∃ x ∈ xs, s.threshold + 1000 < x) →
      (∃ l, xs.getLast? = some l ∧ l < s.threshold) → countBeats s xs = 1 := by
  induction xs with
  | nil => intro s _ _ _ _ _ _ _ _ _ _ hl; obtain ⟨l, hl, _⟩ := hl; simp at hl
  | cons x xs ih =>
    intro s ht hr hp hlt h18s htr0 htr h18 hshape hmax hlast
    by_cases hup : s.lastSample < x
    · rw [incThenDec_cons_lt _ x xs hup] at hshape
      obtain ⟨hb, e1, e2, e3, e4, e5⟩ := step_hold s x ht hr (by omega)
      have hmx : max s.peak x = x := max_eq_right (by omega)
      rw [hmx] at e4
      have hne : xs ≠ [] := by
        rintro rfl
        obtain ⟨l, hl, hlt2⟩ := hlast
        simp at hl
        omega
      obtain ⟨y, ys, rfl⟩ := List.exists_cons_of_ne_nil hne
      rw [countBeats_cons, hb]
      have := ih (checkForBeat s x).1 (by rw [e1]; exact ht) e2 (by rw [e3, e4])
        (by rw [e1, e3]; omega) (by rw [e3]; exact h18 x (List.mem_cons_self _ _))
        (by rw [e5]; exact htr0) (by rw [e5, e1]; exact htr)
        (fun z hz => h18 z (List.mem_cons_of_mem _ hz))
        (by rw [e3]; exact hshape)
        (by
          rw [e1, e4]
          rcases hmax with h | ⟨z, hz, hzt⟩
          · left; omega
          · rcases List.mem_cons.1 hz with rfl | hz
            · left; exact hzt
            · right; exact ⟨z, hz, hzt⟩)
        (by
          rw [e1]
          obtain ⟨l, hl, hlt2⟩ := hlast
          rw [List.getLast?_cons_cons] at hl
          exact ⟨l, hl, hlt2⟩)
      rw [this]; simp
    · rw [incThenDec_cons_ge _ x xs hup] at hshape
      have hbig : s.threshold + 1000 < s.peak := by
        rcases hmax with h | ⟨z, hz, hzt⟩
        · exact h
        · have := strictlyDecreasing_lt_head (x :: xs) s.lastSample hshape z hz
          omega
      refine countBeats_down (x :: xs) s ht hr (le_of_lt hlt) (by omega)
        (wrap32_amp_gt _ _ _ (by rw [hp]; exact h18s) htr0 htr hbig) hshape ?_
      obtain ⟨l, hl, hlt2⟩ := hlast
      exact ⟨l, List.mem_of_getLast?_eq_some hl, hlt2⟩

/-- Tracking and not rising: a rise-then-fall sequence of 18-bit samples that reaches
more than 1000 above the threshold and ends below it yields exactly one beat. -/
theorem countBeats_through_threshold (xs : List Int) :
    ∀ s : BeatState, s.threshold ≠ 0 → s.rising = false → s.lastSample ≤ s.threshold →
      0 ≤ s.lastSample → (∀ x ∈ xs, is18 x) → incThenDec xs = true →
      (∃ x ∈ xs, s.threshold + 1000 < x) →
      (∃ l, xs.getLast? = some l ∧ l < s.threshold) → countBeats s xs = 1 := by
  induction xs with
  | nil => intro s _ _ _ _ _ _ _ hl; obtain ⟨l, hl, _⟩ := hl; simp at hl
  | cons x xs ih =>
    intro s ht hr hl hl0 h18 hshape hmax hlast
    have hx18 := h18 x (List.mem_cons_self _ _)
    have hne : x ≤ s.threshold ∨ s.threshold < x → xs ≠ [] := by
      rintro hc rfl
      obtain ⟨l, hl1, hl2⟩ := hlast
      obtain ⟨z, hz, hzt⟩ := hmax
      simp at hl1 hz
      omega
    obtain ⟨y, ys, rfl⟩ := List.exists_cons_of_ne_nil (hne (le_or_lt x s.threshold))
    have hlast2 : ∃ l, (y :: ys).getLast? = some l ∧ l < s.threshold := by
      obtain ⟨l, hl1, hl2⟩ := hlast
      rw [List.getLast?_cons_cons] at hl1
      exact ⟨l, hl1, hl2⟩
    rw [countBeats_cons]
    by_cases hx : x ≤ s.threshold
    · obtain ⟨hb, e1, e2, e3⟩ := step_below s x ht hr hx
      rw [hb]
      have := ih (checkForBeat s x).1 (by rw [e1]; exact ht) e2 (by rw [e1, e3]; exact hx)
        (by rw [e3]; exact hx18.1) (fun z hz => h18 z (List.mem_cons_of_mem _ hz))
        (incThenDec_tail x _ hshape)
        (by
          rw [e1]
          obtain ⟨z, hz, hzt⟩ := hmax
          rcases List.mem_cons.1 hz with rfl | hz
          · omega
          · exact ⟨z, hz, hzt⟩)
        (by rw [e1]; exact hlast2)
      rw [this]; simp
    · obtain ⟨hb, e1, e2, e3, e4, e5⟩ := step_cross_up s x ht hr hl (by omega)
      rw [hb]
      have := countBeats_up (y :: ys) (checkForBeat s x).1 (by rw [e1]; exact ht) e2
        (by rw [e3, e4]) (by rw [e1, e3]; omega) (by rw [e3]; exact hx18)
        (by rw [e5]; exact hl0) (by rw [e5, e1]; exact hl)
        (fun z hz => h18 z (List.mem_cons_of_mem _ hz)) (by rw [e3]; exact hshape)
        (by
          rw [e1, e4]
          obtain ⟨z, hz, hzt⟩ := hmax
          rcases List.mem_cons.1 hz with rfl | hz
          · left; exact hzt
          · right; exact ⟨z, hz, hzt⟩)
        (by rw [e1]; exact hlast2)
      rw [this]; simp

/-- C4 (as stated, refuted): the sequence `50000, 52000, 50001` strictly increases to
its maximum and then strictly decreases, its maximum minus minimum is 2000 > 1000,
yet no call returns `true`. -/
theorem C4_ramp_without_beat :
    incThenDec [50000, 52000, 50001] = true ∧
      (∃ a ∈ [(50000 : Int), 52000, 50001], ∃ b ∈ [(50000 : Int), 52000, 50001],
        a - b > 1000) ∧
      countBeats initState [50000, 52000, 50001] = 0 ∧
      beats initState [50000, 52000, 50001] = [false, false, false] := by
  decide

/-- C4 (amended): (1) every sequence that strictly increases to a maximum and then
strictly decreases, fed from the initial statics, makes `checkForBeat` return `true`
at most once; (2) from any tracking state (threshold non-zero, not rising, previous
sample non-negative and not above the threshold) such a sequence of 18-bit samples
makes it return `true` exactly once when some sample exceeds the threshold by more
than 1000 and the final sample is below the threshold. -/
theorem C4_ramp_beats :
    (∀ xs : List Int, incThenDec xs = true → countBeats initState xs ≤ 1) ∧
    (∀ (s : BeatState) (xs : List Int), s.threshold ≠ 0 → s.rising = false →
      s.lastSample ≤ s.threshold → 0 ≤ s.lastSample → (∀ x ∈ xs, is18 x) →
      incThenDec xs = true → (∃ x ∈ xs, s.threshold + 1000 < x) →
      (∃ l, xs.getLast? = some l ∧ l < s.threshold) → countBeats s xs = 1) :=
  ⟨countBeats_init_ramp_le_one, fun s xs => countBeats_through_threshold xs s⟩

/-- Witness for C4: the ramp `50000, 52000, 49000` from the initial statics (at
most one beat), and the ramp `50500, 52000, 49000` from the tracking state
`restState` with threshold 50000 (exactly one beat). -/
theorem C4_ramp_beats_witness :
    countBeats initState [50000, 52000, 49000] ≤ 1 ∧
      countBeats restState [50500, 52000, 49000] = 1 :=
  ⟨C4_ramp_beats.1 [50000, 52000, 49000] (by decide),
    C4_ramp_beats.2 restState [50500, 52000, 49000] (by decide) (by decide) (by decide)
      (by decide) (by decide) (by decide) (by decide) (by decide)⟩

/-! ## Estimator: structure of the result (C7 to C10) -/

theorem maxim_short (ir red : List Nat) (n : Int) (h : n < 25) :
    maxim_heart_rate_and_oxygen_saturation ir n red = ⟨0, 0, 0, 0⟩ := by
  unfold maxim_heart_rate_and_oxygen_saturation
  rw [if_pos h]

theorem maxim_zero_mean (ir red : List Nat) (n : Int) (h : ¬ n < 25)
    (hm : windowMean ir n = 0 ∨ windowMean red n = 0) :
    maxim_heart_rate_and_oxygen_saturation ir n red = ⟨0, 0, 0, 0⟩ := by
  unfold maxim_heart_rate_and_oxygen_saturation
  rw [if_neg h]
  simp only [if_pos hm]

theorem maxim_main (ir red : List Nat) (n : Int) (h : ¬ n < 25)
    (hm : ¬ (windowMean ir n = 0 ∨ windowMean red n = 0)) :
    maxim_heart_rate_and_oxygen_saturation ir n red =
      ⟨(spo2Block (acSum ir n.toNat) (windowMean ir n) (acSum red n.toNat)
          (windowMean red n)).1,
        (spo2Block (acSum ir n.toNat) (windowMean ir n) (acSum red n.toNat)
          (windowMean red n)).2,
        (heartRateBlock ir n (windowMean ir n)).1,
        (heartRateBlock ir n (windowMean ir n)).2⟩ := by
  unfold maxim_heart_rate_and_oxygen_saturation
  rw [if_neg h]
  simp only [if_neg hm]

/-- The three ways the function ends. -/
theorem maxim_cases (ir red : List Nat) (n : Int) :
    maxim_heart_rate_and_oxygen_saturation ir n red = ⟨0, 0, 0, 0⟩ ∨
    (¬ n < 25 ∧ windowMean ir n ≠ 0 ∧ windowMean red n ≠ 0 ∧
      maxim_heart_rate_and_oxygen_saturation ir n red =
        ⟨(spo2Block (acSum ir n.toNat) (windowMean ir n) (acSum red n.toNat)
            (windowMean red n)).1,
          (spo2Block (acSum ir n.toNat) (windowMean ir n) (acSum red n.toNat)
            (windowMean red n)).2,
          (heartRateBlock ir n (windowMean ir n)).1,
          (heartRateBlock ir n (windowMean ir n)).2⟩) := by
  by_cases h : n < 25
  · exact Or.inl (maxim_short ir red n h)
  · by_cases hm : windowMean ir n = 0 ∨ windowMean red n = 0
    · exact Or.inl (maxim_zero_mean ir red n h hm)
    · exact Or.inr ⟨h, fun hc => hm (Or.inl hc), fun hc => hm (Or.inr hc),
        maxim_main ir red n h hm⟩

/-! ## Short windows (C8) -/

/-- C8: for every buffer length `n < 25` and every buffer content the function
leaves all four output cells at 0: both validity flags 0 and both values 0. -/
theorem C8_short_window_invalid (ir red : List Nat) (n : Int) (h : n < 25) :
    (maxim_heart_rate_and_oxygen_saturation ir n red).spo2_valid = 0 ∧
    (maxim_heart_rate_and_oxygen_saturation ir n red).hr_valid = 0 ∧
    (maxim_heart_rate_and_oxygen_saturation ir n red).spo2 = 0 ∧
    (maxim_heart_rate_and_oxygen_saturation ir n red).heart_rate = 0 := by
  rw [maxim_short ir red n h]
  exact ⟨rfl, rfl, rfl, rfl⟩

/-- Witness for C8: the first 24 samples of `pulseWindow` on both channels. -/
theorem C8_short_window_invalid_witness :
    (maxim_heart_rate_and_oxygen_saturation (pulseWindow.take 24) 24
        (pulseWindow.take 24)).spo2_valid = 0 ∧
    (maxim_heart_rate_and_oxygen_saturation (pulseWindow.take 24) 24
        (pulseWindow.take 24)).hr_valid = 0 ∧
    (maxim_heart_rate_and_oxygen_saturation (pulseWindow.take 24) 24
        (pulseWindow.take 24)).spo2 = 0 ∧
    (maxim_heart_rate_and_oxygen_saturation (pulseWindow.take 24) 24
        (pulseWindow.take 24)).heart_rate = 0 :=
  C8_short_window_invalid (pulseWindow.take 24) (pulseWindow.take 24) 24 (by decide)

/-! ## Plausibility bands (C10) -/

theorem heartRateBlock_flag (ir : List Nat) (n : Int) (m : Nat) :
    ((heartRateBlock ir n m).2 = 0 ∨ (heartRateBlock ir n m).2 = 1) ∧
    ((heartRateBlock ir n m).2 = 1 ↔
      50 ≤ (heartRateBlock ir n m).1 ∧ (heartRateBlock ir n m).1 ≤ 200) := by
  unfold heartRateBlock
  simp only []
  split_ifs with h1 h2 h3 h4 <;> simp_all

theorem roundNat_den_pos (p : Nat) (emin : Int) (n d : Nat) : 0 < (roundNat p emin n d).den := by
  unfold roundNat
  simp only []
  split_ifs <;> simp

theorem roundFrac_den_pos (p : Nat) (emin : Int) (a : Frac) : 0 < (roundFrac p emin a).den := by
  unfold roundFrac
  simp only []
  split_ifs
  · exact roundNat_den_pos _ _ _ _
  · exact roundNat_den_pos _ _ _ _

theorem Frac.lt_toRat (a b : Frac) (ha : 0 < a.den) (hb : 0 < b.den)
    (h : a.lt b = true) : a.toRat < b.toRat := by
  unfold Frac.lt at h
  unfold Frac.toRat
  have h' : a.num * (b.den : Int) < b.num * (a.den : Int) := by simpa using h
  have ha' : (0 : ℚ) < (a.den : ℚ) := by exact_mod_cast ha
  have hb' : (0 : ℚ) < (b.den : ℚ) := by exact_mod_cast hb
  rw [div_lt_div_iff₀ ha' hb']
  exact_mod_cast h'

theorem round64_two_fifths : round64 ⟨2, 5⟩ = ⟨7205759403792794, 18014398509481984⟩ := by
  decide

theorem round64_three_halves : round64 ⟨3, 2⟩ = ⟨6755399441055744, 4503599627370496⟩ := by
  decide


theorem acdcRatio_den_pos (ir_ac ir_mean red_ac red_mean : Nat) (q : Frac)
    (h : acdcRatio ir_ac ir_mean red_ac red_mean = Fl.fin q) : 0 < q.den := by
  unfold acdcRatio Fl.div32 at h
  split_ifs at h
  · injection h with hq
    rw [← hq]
    exact roundFrac_den_pos _ _ _

theorem spo2Block_flag (ir_ac ir_mean red_ac red_mean : Nat) :
    ((spo2Block ir_ac ir_mean red_ac red_mean).2 = 0 ∨
      (spo2Block ir_ac ir_mean red_ac red_mean).2 = 1) ∧
    ((spo2Block ir_ac ir_mean red_ac red_mean).2 = 1 ↔
      70 ≤ (spo2Block ir_ac ir_mean red_ac red_mean).1 ∧
      (spo2Block ir_ac ir_mean red_ac red_mean).1 ≤ 100) ∧
    ((spo2Block ir_ac ir_mean red_ac red_mean).2 = 1 →
      ∃ q, acdcRatio ir_ac ir_mean red_ac red_mean = Fl.fin q ∧
        (2 / 5 : ℚ) < q.toRat ∧ q.toRat < 3 / 2) := by
  unfold spo2Block
  by_cases hm : 0 < ir_mean ∧ 0 < red_mean
  · rw [if_pos hm]
    simp only []
    by_cases hr : (acdcRatio ir_ac ir_mean red_ac red_mean).gt (round64 ⟨2, 5⟩) = true ∧
        (acdcRatio ir_ac ir_mean red_ac red_mean).lt (round64 ⟨3, 2⟩) = true
    · rw [if_pos hr]
      cases hq : acdcRatio ir_ac ir_mean red_ac red_mean with
      | nan => rw [hq] at hr; simp [Fl.gt] at hr
      | pinf => rw [hq] at hr; simp [Fl.lt] at hr
      | fin q =>
        rw [hq] at hr
        have hd := acdcRatio_den_pos _ _ _ _ q hq
        have h1 : (2 / 5 : ℚ) < q.toRat := by
          have := Frac.lt_toRat (round64 ⟨2, 5⟩) q (roundFrac_den_pos _ _ _) hd hr.1
          rw [round64_two_fifths] at this
          refine lt_trans ?_ this
          unfold Frac.toRat
          norm_num
        have h2 : q.toRat < 3 / 2 := by
          have := Frac.lt_toRat q (round64 ⟨3, 2⟩) hd (roundFrac_den_pos _ _ _) hr.2
          rw [round64_three_halves] at this
          refine lt_of_lt_of_le this ?_
          unfold Frac.toRat
          norm_num
        simp only []
        split_ifs with hb
        · exact ⟨Or.inr rfl, ⟨fun _ => hb, fun _ => rfl⟩, fun _ => ⟨q, rfl, h1, h2⟩⟩
        · exact ⟨Or.inl rfl, ⟨fun hc => by simp at hc, fun hc => absurd hc hb⟩,
            fun hc => by simp at hc⟩
    · rw [if_neg hr]; simp
  · rw [if_neg hm]; simp

set_option maxRecDepth 100000 in
/-- The estimator evaluated on `pulseWindow` for both channels. -/
theorem maxim_pulseWindow :
    maxim_heart_rate_and_oxygen_saturation pulseWindow 25 pulseWindow = ⟨85, 1, 120, 1⟩ := by
  decide

/-- The heart-rate cell holds the value computed on the path taken, whatever its
flag. -/
theorem heartRateBlock_value (ir : List Nat) (n : Int) (m : Nat) :
    (2 ≤ (peakScan ir n.toNat (dynamicThreshold ir n.toNat m)).peakIntervals.length →
      (heartRateBlock ir n m).1 =
        hrFromIntervals (peakScan ir n.toNat (dynamicThreshold ir n.toNat m)).peakIntervals) ∧
    ((peakScan ir n.toNat (dynamicThreshold ir n.toNat m)).peakIntervals.length < 2 →
      0 < (peakScan ir n.toNat (dynamicThreshold ir n.toNat m)).peaks →
      (heartRateBlock ir n m).1 =
        hrFromPeaks (peakScan ir n.toNat (dynamicThreshold ir n.toNat m)).peaks n) ∧
    ((peakScan ir n.toNat (dynamicThreshold ir n.toNat m)).peakIntervals.length < 2 →
      (peakScan ir n.toNat (dynamicThreshold ir n.toNat m)).peaks ≤ 0 →
      (heartRateBlock ir n m).1 = 0) := by
  unfold heartRateBlock
  simp only []
  generalize peakScan ir n.toNat (dynamicThreshold ir n.toNat m) = st
  refine ⟨fun h => ?_, fun h1 h2 => ?_, fun h1 h2 => ?_⟩
  · rw [if_pos h]; split_ifs <;> rfl
  · rw [if_neg (by omega), if_pos h2]; split_ifs <;> rfl
  · rw [if_neg (by omega), if_neg (by omega)]

/-- The SpO2 cell holds `(int32_t)(110 - 25 * ratio)` whenever the ratio passes
`ratio > 0.4 && ratio < 1.5`, whatever its flag, and 0 otherwise. -/
theorem spo2Block_value (ir_ac ir_mean red_ac red_mean : Nat) (hi : ir_mean ≠ 0)
    (hr : red_mean ≠ 0) :
    (∀ q, acdcRatio ir_ac ir_mean red_ac red_mean = Fl.fin q →
      (Fl.fin q).gt (round64 ⟨2, 5⟩) = true → (Fl.fin q).lt (round64 ⟨3, 2⟩) = true →
      (spo2Block ir_ac ir_mean red_ac red_mean).1 = spo2FromRatio q) ∧
    (¬ ((acdcRatio ir_ac ir_mean red_ac red_mean).gt (round64 ⟨2, 5⟩) = true ∧
        (acdcRatio ir_ac ir_mean red_ac red_mean).lt (round64 ⟨3, 2⟩) = true) →
      (spo2Block ir_ac ir_mean red_ac red_mean).1 = 0) := by
  unfold spo2Block
  rw [if_pos ⟨by omega, by omega⟩]
  simp only []
  refine ⟨fun q hq h1 h2 => ?_, fun h => ?_⟩
  · rw [hq, if_pos ⟨h1, h2⟩]
    simp only []
    unfold spo2FromRatio
    split_ifs <;> rfl
  · rw [if_neg h]
set_option maxRecDepth 100000 in
/-- The estimator evaluated on `alternatingWindow` for both channels: the heart rate
299 is reported as computed, with flag 0. -/
theorem maxim_alternatingWindow :
    maxim_heart_rate_and_oxygen_saturation alternatingWindow 25 alternatingWindow =
      ⟨85, 1, 299, 0⟩ := by
  decide

/-- C10: for every input, (1) the heart-rate flag is 1 exactly when the reported heart
rate lies in 50..200 and the SpO2 flag is 1 exactly when the reported SpO2 lies in
70..100 (each flag is 0 or 1), so a valid flag implies the band and a value reported
with flag 0 is outside the band; a valid SpO2 moreover has a finite AC/DC ratio
strictly between 0.4 and 1.5; (2) the reported values are the computed ones, never
clamped: when the function returns early (`n < 25` or a zero channel mean) both values
are 0; otherwise the heart rate is `(int32_t)(60.0 / intervalSeconds)` of the recorded
intervals when at least two were recorded, `(int32_t)((peaks / time_seconds) * 60)`
when fewer were recorded and a peak was found, and 0 when no peak was found, and the
SpO2 is `(int32_t)(110 - 25 * ratio)` when `ratio > 0.4 && ratio < 1.5` and 0
otherwise, in each case whatever the flag. -/
theorem C10_valid_only_in_band (ir red : List Nat) (n : Int) :
    ((maxim_heart_rate_and_oxygen_saturation ir n red).hr_valid = 1 →
      50 ≤ (maxim_heart_rate_and_oxygen_saturation ir n red).heart_rate ∧
      (maxim_heart_rate_and_oxygen_saturation ir n red).heart_rate ≤ 200) ∧
    ((maxim_heart_rate_and_oxygen_saturation ir n red).spo2_valid = 1 →
      70 ≤ (maxim_heart_rate_and_oxygen_saturation ir n red).spo2 ∧
      (maxim_heart_rate_and_oxygen_saturation ir n red).spo2 ≤ 100 ∧
      ∃ q, acdcRatio (acSum ir n.toNat) (windowMean ir n) (acSum red n.toNat)
          (windowMean red n) = Fl.fin q ∧ (2 / 5 : ℚ) < q.toRat ∧ q.toRat < 3 / 2) ∧
    ((maxim_heart_rate_and_oxygen_saturation ir n red).hr_valid = 0 →
      ¬ (50 ≤ (maxim_heart_rate_and_oxygen_saturation ir n red).heart_rate ∧
        (maxim_heart_rate_and_oxygen_saturation ir n red).heart_rate ≤ 200)) ∧
    ((maxim_heart_rate_and_oxygen_saturation ir n red).spo2_valid = 0 →
      ¬ (70 ≤ (maxim_heart_rate_and_oxygen_saturation ir n red).spo2 ∧
        (maxim_heart_rate_and_oxygen_saturation ir n red).spo2 ≤ 100)) ∧
    ((maxim_heart_rate_and_oxygen_saturation ir n red).hr_valid = 0 ∨
      (maxim_heart_rate_and_oxygen_saturation ir n red).hr_valid = 1) ∧
    ((maxim_heart_rate_and_oxygen_saturation ir n red).spo2_valid = 0 ∨
      (maxim_heart_rate_and_oxygen_saturation ir n red).spo2_valid = 1) ∧
    ((n < 25 ∨ windowMean ir n = 0 ∨ windowMean red n = 0) →
      (maxim_heart_rate_and_oxygen_saturation ir n red).heart_rate = 0 ∧
      (maxim_heart_rate_and_oxygen_saturation ir n red).spo2 = 0) ∧
    (¬ n < 25 → windowMean ir n ≠ 0 → windowMean red n ≠ 0 →
      (2 ≤ (peakScan ir n.toNat
          (dynamicThreshold ir n.toNat (windowMean ir n))).peakIntervals.length →
        (maxim_heart_rate_and_oxygen_saturation ir n red).heart_rate =
          hrFromIntervals (peakScan ir n.toNat
            (dynamicThreshold ir n.toNat (windowMean ir n))).peakIntervals) ∧
      ((peakScan ir n.toNat
          (dynamicThreshold ir n.toNat (windowMean ir n))).peakIntervals.length < 2 →
        0 < (peakScan ir n.toNat (dynamicThreshold ir n.toNat (windowMean ir n))).peaks →
        (maxim_heart_rate_and_oxygen_saturation ir n red).heart_rate =
          hrFromPeaks (peakScan ir n.toNat
            (dynamicThreshold ir n.toNat (windowMean ir n))).peaks n) ∧
      ((peakScan ir n.toNat
          (dynamicThreshold ir n.toNat (windowMean ir n))).peakIntervals.length < 2 →
        (peakScan ir n.toNat (dynamicThreshold ir n.toNat (windowMean ir n))).peaks ≤ 0 →
        (maxim_heart_rate_and_oxygen_saturation ir n red).heart_rate = 0) ∧
      (∀ q, acdcRatio (acSum ir n.toNat) (windowMean ir n) (acSum red n.toNat)
            (windowMean red n) = Fl.fin q →
        (Fl.fin q).gt (round64 ⟨2, 5⟩) = true → (Fl.fin q).lt (round64 ⟨3, 2⟩) = true →
        (maxim_heart_rate_and_oxygen_saturation ir n red).spo2 = spo2FromRatio q) ∧
      (¬ ((acdcRatio (acSum ir n.toNat) (windowMean ir n) (acSum red n.toNat)
              (windowMean red n)).gt (round64 ⟨2, 5⟩) = true ∧
            (acdcRatio (acSum ir n.toNat) (windowMean ir n) (acSum red n.toNat)
              (windowMean red n)).lt (round64 ⟨3, 2⟩) = true) →
        (maxim_heart_rate_and_oxygen_saturation ir n red).spo2 = 0)) := by
  have early : (n < 25 ∨ windowMean ir n = 0 ∨ windowMean red n = 0) →
      (maxim_heart_rate_and_oxygen_saturation ir n red).heart_rate = 0 ∧
      (maxim_heart_rate_and_oxygen_saturation ir n red).spo2 = 0 := by
    intro he
    by_cases hn : n < 25
    · rw [maxim_short ir red n hn]; exact ⟨rfl, rfl⟩
    · rw [maxim_zero_mean ir red n hn (he.resolve_left hn)]; exact ⟨rfl, rfl⟩
  rcases maxim_cases ir red n with h | ⟨hn, hi, hr, h⟩
  · refine ⟨?_, ?_, ?_, ?_, ?_, ?_, early, ?_⟩
    · rw [h]; simp
    · rw [h]; simp
    · rw [h]; simp
    · rw [h]; simp
    · rw [h]; simp
    · rw [h]; simp
    · intro hn hi hr
      rw [maxim_main ir red n hn (fun hc => hc.elim hi hr)]
      obtain ⟨v1, v2, v3⟩ := heartRateBlock_value ir n (windowMean ir n)
      obtain ⟨w1, w2⟩ := spo2Block_value (acSum ir n.toNat) (windowMean ir n)
        (acSum red n.toNat) (windowMean red n) hi hr
      exact ⟨v1, v2, v3, w1, w2⟩
  · rw [h]
    obtain ⟨a1, a2⟩ := heartRateBlock_flag ir n (windowMean ir n)
    obtain ⟨b1, b2, b3⟩ := spo2Block_flag (acSum ir n.toNat) (windowMean ir n)
      (acSum red n.toNat) (windowMean red n)
    obtain ⟨v1, v2, v3⟩ := heartRateBlock_value ir n (windowMean ir n)
    obtain ⟨w1, w2⟩ := spo2Block_value (acSum ir n.toNat) (windowMean ir n)
      (acSum red n.toNat) (windowMean red n) hi hr
    refine ⟨fun hc => a2.1 hc, fun hc => ⟨(b2.1 hc).1, (b2.1 hc).2, b3 hc⟩, ?_, ?_, a1, b1,
      ?_, fun _ _ _ => ⟨v1, v2, v3, w1, w2⟩⟩
    · intro hc hb
      have := a2.2 hb
      simp only [] at hc this
      rw [hc] at this
      exact absurd this (by decide)
    · intro hc hb
      have := b2.2 hb
      simp only [] at hc this
      rw [hc] at this
      exact absurd this (by decide)
    · intro he
      rcases he with he | he | he
      · exact absurd he hn
      · exact absurd he hi
      · exact absurd he hr

set_option maxRecDepth 100000 in
/-- Witness for C10: `pulseWindow` on both channels, 25 samples: heart rate 120 and
SpO2 85, both flagged valid and in band; `alternatingWindow` on both channels: ten
intervals of 2 are recorded and the heart rate is reported as computed from them,
299, with flag 0 and outside the band. -/
theorem C10_valid_only_in_band_witness :
    (maxim_heart_rate_and_oxygen_saturation pulseWindow 25 pulseWindow).hr_valid = 1 ∧
    (maxim_heart_rate_and_oxygen_saturation pulseWindow 25 pulseWindow).spo2_valid = 1 ∧
    (50 ≤ (maxim_heart_rate_and_oxygen_saturation pulseWindow 25 pulseWindow).heart_rate ∧
      (maxim_heart_rate_and_oxygen_saturation pulseWindow 25 pulseWindow).heart_rate ≤ 200) ∧
    70 ≤ (maxim_heart_rate_and_oxygen_saturation pulseWindow 25 pulseWindow).spo2 ∧
    (maxim_heart_rate_and_oxygen_saturation pulseWindow 25 pulseWindow).spo2 ≤ 100 ∧
    (maxim_heart_rate_and_oxygen_saturation alternatingWindow 25
      alternatingWindow).hr_valid = 0 ∧
    (maxim_heart_rate_and_oxygen_saturation alternatingWindow 25
      alternatingWindow).heart_rate = 299 ∧
    hrFromIntervals (peakScan alternatingWindow (25 : Int).toNat
      (dynamicThreshold alternatingWindow (25 : Int).toNat
        (windowMean alternatingWindow 25))).peakIntervals = 299 ∧
    (maxim_heart_rate_and_oxygen_saturation alternatingWindow 25
      alternatingWindow).heart_rate =
      hrFromIntervals (peakScan alternatingWindow (25 : Int).toNat
        (dynamicThreshold alternatingWindow (25 : Int).toNat
          (windowMean alternatingWindow 25))).peakIntervals ∧
    ¬ (50 ≤ (maxim_heart_rate_and_oxygen_saturation alternatingWindow 25
          alternatingWindow).heart_rate ∧
        (maxim_heart_rate_and_oxygen_saturation alternatingWindow 25
          alternatingWindow).heart_rate ≤ 200) :=
  ⟨maxim_pulseWindow ▸ rfl, maxim_pulseWindow ▸ rfl,
    (C10_valid_only_in_band pulseWindow pulseWindow 25).1 (maxim_pulseWindow ▸ rfl),
    ((C10_valid_only_in_band pulseWindow pulseWindow 25).2.1 (maxim_pulseWindow ▸ rfl)).1,
    ((C10_valid_only_in_band pulseWindow pulseWindow 25).2.1 (maxim_pulseWindow ▸ rfl)).2.1,
    maxim_alternatingWindow ▸ rfl, maxim_alternatingWindow ▸ rfl, by decide,
    ((C10_valid_only_in_band alternatingWindow alternatingWindow 25).2.2.2.2.2.2.2
      (by decide) (by decide) (by decide)).1 (by decide),
    (C10_valid_only_in_band alternatingWindow alternatingWindow 25).2.2.1
      (maxim_alternatingWindow ▸ rfl)⟩


/-! ## Constant windows (C9) -/

theorem getD_replicate_lt (n c i : Nat) (h : i < n) : (List.replicate n c).getD i 0 = c := by
  simp [List.getElem?_replicate_of_lt h]

theorem foldl_fixed {α β : Type} (f : α → β → α) (a : α) (l : List β)
    (h : ∀ i ∈ l, f a i = a) : l.foldl f a = a := by
  induction l with
  | nil => rfl
  | cons x l ih =>
    rw [List.foldl_cons, h x (List.mem_cons_self x l)]
    exact ih (fun i hi => h i (List.mem_cons_of_mem x hi))

/-- A constant channel has zero AC sum. -/
theorem acSum_replicate (n c : Nat) : acSum (List.replicate n c) n = 0 := by
  unfold acSum
  apply foldl_fixed
  intro i hi
  rw [List.mem_range'_1] at hi
  rw [getD_replicate_lt n c i (by omega), getD_replicate_lt n c (i - 1) (by omega)]
  simp [wrap32, ofI32, u32]

/-- A constant channel has no peak, whatever the threshold. -/
theorem peakScan_replicate (n c thr : Nat) :
    peakScan (List.replicate n c) n thr =
      { peaks := 0, lastPeakIndex := -1, peakIntervals := [] } := by
  unfold peakScan
  apply foldl_fixed
  intro i hi
  rw [List.mem_range'_1] at hi
  unfold peakStepAt
  rw [getD_replicate_lt n c i (by omega), getD_replicate_lt n c (i - 1) (by omega)]
  simp

theorem round32_zero_num (a : Frac) (h : a.num = 0) : round32 a = ⟨0, 1⟩ := by
  unfold round32 roundFrac roundNat
  simp [h]

/-- With both AC sums zero the ratio is `0/0`, a NaN. -/
theorem acdcRatio_zero_ac (ir_mean red_mean : Nat) :
    acdcRatio 0 ir_mean 0 red_mean = Fl.nan := by
  unfold acdcRatio
  have h0 : round32 (Frac.ofInt ((0 : Nat) : Int)) = ⟨0, 1⟩ := round32_zero_num _ rfl
  rw [h0]
  have h1 : ∀ b : Frac, round32 ((⟨0, 1⟩ : Frac).div b) = ⟨0, 1⟩ :=
    fun b => round32_zero_num _ (by simp [Frac.div])
  rw [h1, h1]
  rfl

theorem spo2Block_zero_ac (ir_mean red_mean : Nat) :
    spo2Block 0 ir_mean 0 red_mean = (0, 0) := by
  unfold spo2Block
  rw [acdcRatio_zero_ac]
  simp [Fl.gt]

theorem heartRateBlock_replicate (n c m : Nat) :
    heartRateBlock (List.replicate n c) (n : Int) m = (0, 0) := by
  unfold heartRateBlock
  simp only [Int.toNat_ofNat, peakScan_replicate]
  simp

/-- C9: for every window of length `n ≥ 25` whose infrared samples all equal one
18-bit constant and whose red samples all equal one 18-bit constant, the function
reports heart rate and SpO2 invalid (flags 0, values 0); no peak is found for any
threshold and both AC sums are zero. (The proof does not use the 18-bit bounds.) -/
theorem C9_constant_window_invalid (n c_ir c_red : Nat) (_hn : 25 ≤ n)
    (_hir : c_ir < 262144) (_hred : c_red < 262144) :
    maxim_heart_rate_and_oxygen_saturation (List.replicate n c_ir) (n : Int)
        (List.replicate n c_red) = ⟨0, 0, 0, 0⟩ ∧
    (∀ thr : Nat, (peakScan (List.replicate n c_ir) n thr).peaks = 0) ∧
    acSum (List.replicate n c_ir) n = 0 ∧ acSum (List.replicate n c_red) n = 0 := by
  refine ⟨?_, fun thr => by rw [peakScan_replicate], acSum_replicate n c_ir,
    acSum_replicate n c_red⟩
  rcases maxim_cases (List.replicate n c_ir) (List.replicate n c_red) (n : Int) with
    h | ⟨_, _, _, h⟩
  · exact h
  · rw [h]
    simp only [Int.toNat_ofNat, acSum_replicate, spo2Block_zero_ac, heartRateBlock_replicate]

/-- Witness for C9: 25 identical pairs `(ir = 50000, red = 50000)`. -/
theorem C9_constant_window_invalid_witness :
    (maxim_heart_rate_and_oxygen_saturation (List.replicate 25 50000) 25
        (List.replicate 25 50000)).hr_valid = 0 ∧
    (maxim_heart_rate_and_oxygen_saturation (List.replicate 25 50000) 25
        (List.replicate 25 50000)).spo2_valid = 0 :=
  ⟨congrArg Outputs.hr_valid
      (C9_constant_window_invalid 25 50000 50000 (by decide) (by decide) (by decide)).1,
    congrArg Outputs.spo2_valid
      (C9_constant_window_invalid 25 50000 50000 (by decide) (by decide) (by decide)).1⟩


/-! ## The heart rate and the red channel (C7) -/

set_option maxRecDepth 100000 in
/-- C7 (as stated, refuted): with the infrared window `pulseWindow` (25 samples) and
two red buffers of 25 samples, one all 0 and one all 50000, the reported heart rate
and flag differ: `0, 0` for the first (zero red mean, early return) and `120, 1` for
the second. -/
theorem C7_heart_rate_depends_on_red :
    pulseWindow.length = 25 ∧ (List.replicate 25 0).length = 25 ∧
    (List.replicate 25 50000).length = 25 ∧
    (maxim_heart_rate_and_oxygen_saturation pulseWindow 25 (List.replicate 25 0)).heart_rate
      = 0 ∧
    (maxim_heart_rate_and_oxygen_saturation pulseWindow 25 (List.replicate 25 0)).hr_valid
      = 0 ∧
    (maxim_heart_rate_and_oxygen_saturation pulseWindow 25
      (List.replicate 25 50000)).heart_rate = 120 ∧
    (maxim_heart_rate_and_oxygen_saturation pulseWindow 25
      (List.replicate 25 50000)).hr_valid = 1 := by
  decide

/-- C7 (amended): for every infrared buffer and length `n`, any two red buffers whose
channel means are both non-zero give the same heart rate and the same validity flag;
a red buffer whose mean is zero gives heart rate 0 with flag 0. -/
theorem C7_heart_rate_red_independent (ir : List Nat) (n : Int) :
    (∀ red1 red2 : List Nat, windowMean red1 n ≠ 0 → windowMean red2 n ≠ 0 →
      (maxim_heart_rate_and_oxygen_saturation ir n red1).heart_rate =
        (maxim_heart_rate_and_oxygen_saturation ir n red2).heart_rate ∧
      (maxim_heart_rate_and_oxygen_saturation ir n red1).hr_valid =
        (maxim_heart_rate_and_oxygen_saturation ir n red2).hr_valid) ∧
    (∀ red : List Nat, 25 ≤ n → windowMean red n = 0 →
      (maxim_heart_rate_and_oxygen_saturation ir n red).heart_rate = 0 ∧
      (maxim_heart_rate_and_oxygen_saturation ir n red).hr_valid = 0) := by
  constructor
  · intro red1 red2 h1 h2
    by_cases hn : n < 25
    · rw [maxim_short ir red1 n hn, maxim_short ir red2 n hn]
      exact ⟨rfl, rfl⟩
    · by_cases hi : windowMean ir n = 0
      · rw [maxim_zero_mean ir red1 n hn (Or.inl hi), maxim_zero_mean ir red2 n hn (Or.inl hi)]
        exact ⟨rfl, rfl⟩
      · rw [maxim_main ir red1 n hn (fun hc => hc.elim hi h1),
          maxim_main ir red2 n hn (fun hc => hc.elim hi h2)]
        exact ⟨rfl, rfl⟩
  · intro red hn hz
    rw [maxim_zero_mean ir red n (by omega) (Or.inr hz)]
    exact ⟨rfl, rfl⟩

/-- Witness for C7: infrared `pulseWindow`, red `pulseWindow` against red constant
50000 (both means non-zero): heart rate 120 and flag 1 in both cases; red all zero:
heart rate 0, flag 0. -/
theorem C7_heart_rate_red_independent_witness :
    ((maxim_heart_rate_and_oxygen_saturation pulseWindow 25 pulseWindow).heart_rate =
        (maxim_heart_rate_and_oxygen_saturation pulseWindow 25
          (List.replicate 25 50000)).heart_rate ∧
      (maxim_heart_rate_and_oxygen_saturation pulseWindow 25 pulseWindow).hr_valid =
        (maxim_heart_rate_and_oxygen_saturation pulseWindow 25
          (List.replicate 25 50000)).hr_valid) ∧
    ((maxim_heart_rate_and_oxygen_saturation pulseWindow 25
        (List.replicate 25 0)).heart_rate = 0 ∧
      (maxim_heart_rate_and_oxygen_saturation pulseWindow 25
        (List.replicate 25 0)).hr_valid = 0) :=
  ⟨(C7_heart_rate_red_independent pulseWindow 25).1 pulseWindow (List.replicate 25 50000)
      (by decide) (by decide),
    (C7_heart_rate_red_independent pulseWindow 25).2 (List.replicate 25 0) (by decide)
      (by decide)⟩


/-! ## Sanity of the arithmetic model -/

theorem sqrtAux_spec (b : Nat) : ∀ r v : Nat, r * r ≤ v → v < (r + 2 ^ b) * (r + 2 ^ b) →
    sqrtAux b r v * sqrtAux b r v ≤ v ∧ v < (sqrtAux b r v + 1) * (sqrtAux b r v + 1) := by
  induction b with
  | zero => intro r v h1 h2; simpa [sqrtAux] using ⟨h1, h2⟩
  | succ b ih =>
    intro r v h1 h2
    unfold sqrtAux
    split_ifs with hc
    · refine ih (r + 2 ^ b) v hc ?_
      have : r + 2 ^ b + 2 ^ b = r + 2 ^ (b + 1) := by rw [pow_succ]; omega
      rw [this]; exact h2
    · exact ih r v h1 (by omega)

/-- On 32-bit arguments `isqrt` is the integer square root. -/
theorem isqrt_eq_sqrt (v : Nat) (h : v < 4294967296) : isqrt v = Nat.sqrt v := by
  have := sqrtAux_spec 16 0 v (by simp) (by simpa using h)
  exact Nat.eq_sqrt.2 this

/-- The model reproduces the IEEE-754 encodings of the constants of the source:
`0.1f = 0x3DCCCCCD`, `0.1 = 0x3FB999999999999A`, `0.4 = 0x3FD999999999999A`, and the
product `6 * 0.1f = 0x3F19999A`. -/
theorem round_constants :
    round32 ⟨1, 10⟩ = ⟨13421773, 2 ^ 27⟩ ∧
    round64 ⟨1, 10⟩ = ⟨7205759403792794, 2 ^ 56⟩ ∧
    round64 ⟨2, 5⟩ = ⟨7205759403792794, 2 ^ 54⟩ ∧
    timePerSample = ⟨13421773, 2 ^ 27⟩ ∧
    round32 ((round32 (Frac.ofInt 6)).mul timePerSample) = ⟨10066330, 2 ^ 24⟩ := by
  decide


theorem log2Aux_spec (fuel : Nat) : ∀ n : Nat, 0 < n → n ≤ fuel →
    2 ^ log2Aux fuel n ≤ n ∧ n < 2 ^ (log2Aux fuel n + 1) := by
  induction fuel with
  | zero => intro n h0 h1; omega
  | succ fuel ih =>
    intro n h0 h1
    unfold log2Aux
    split_ifs with h2
    · simp; omega
    · obtain ⟨a, b⟩ := ih (n / 2) (by omega) (by omega)
      constructor
      · rw [pow_succ]; omega
      · rw [pow_succ]; omega

/-- The halving loop always has enough steps: `ilog2 n` is the floor of the binary
logarithm of every positive `n`. -/
theorem ilog2_spec (n : Nat) (h : 0 < n) : 2 ^ ilog2 n ≤ n ∧ n < 2 ^ (ilog2 n + 1) :=
  log2Aux_spec n n h (le_refl n)

/-- The rounding step picks a nearest integer, and the even one at a tie. -/
theorem nearestEven_spec (N D : Nat) (hD : 0 < D) :
    2 * (N : Int) - D ≤ 2 * ((nearestEven N D * D : Nat) : Int) ∧
    2 * ((nearestEven N D * D : Nat) : Int) ≤ 2 * (N : Int) + D ∧
    (2 * (N % D) = D → nearestEven N D % 2 = 0) := by
  have h1 := Nat.div_add_mod N D
  have h2 := Nat.mod_lt N hD
  have h3 : (N / D + 1) * D = D * (N / D) + D := by ring
  have h4 : N / D * D = D * (N / D) := by ring
  unfold nearestEven
  simp only []
  split_ifs with c1 c2 c3
  · rw [h4]; refine ⟨by omega, by omega, by omega⟩
  · rw [h3]; refine ⟨by omega, by omega, by omega⟩
  · rw [h4]; refine ⟨by omega, by omega, fun _ => c3⟩
  · rw [h3]; refine ⟨by omega, by omega, fun _ => by omega⟩

/-- The exponent used by the rounding is the binary exponent of `n / d`:
`2 ^ e ≤ n / d < 2 ^ (e + 1)`, stated without fractions. -/
theorem floorLog2_spec (n d : Nat) (hn : 0 < n) (hd : 0 < d) :
    (0 ≤ floorLog2 n d →
      d * 2 ^ (floorLog2 n d).toNat ≤ n ∧ n < d * 2 ^ ((floorLog2 n d).toNat + 1)) ∧
    (floorLog2 n d < 0 →
      d ≤ n * 2 ^ (-floorLog2 n d).toNat ∧ n * 2 ^ (-floorLog2 n d).toNat < 2 * d) := by
  obtain ⟨a1, a2⟩ := ilog2_spec n hn
  obtain ⟨b1, b2⟩ := ilog2_spec d hd
  unfold floorLog2
  simp only []
  generalize ilog2 n = a at a1 a2
  generalize ilog2 d = b at b1 b2
  by_cases hab : b ≤ a
  · obtain ⟨c, rfl⟩ := Nat.exists_eq_add_of_le hab
    have e0 : ((b + c : Nat) : Int) - (b : Int) = (c : Int) := by push_cast; ring
    rw [e0]
    rw [if_pos (Int.natCast_nonneg c)]
    simp only [Int.toNat_ofNat]
    have hp : 2 ^ (b + c + 1) = 2 ^ b * 2 ^ (c + 1) := by rw [← pow_add]; ring_nf
    have hq : 2 ^ (b + c) = 2 ^ b * 2 ^ c := by rw [← pow_add]
    have hu : n < d * 2 ^ (c + 1) := by
      calc n < 2 ^ (b + c + 1) := a2
        _ = 2 ^ b * 2 ^ (c + 1) := hp
        _ ≤ d * 2 ^ (c + 1) := Nat.mul_le_mul_right _ b1
    split_ifs with h1
    · refine ⟨fun _ => ?_, fun hc => ?_⟩
      · simp only [Int.toNat_ofNat]; exact ⟨h1, hu⟩
      · omega
    · cases c with
      | zero =>
        refine ⟨fun hc => by simp at hc, fun _ => ?_⟩
        simp at h1 ⊢
        simp at a1 a2
        constructor
        · have : d < 2 * 2 ^ b := by rw [pow_succ] at b2; omega
          omega
        · omega
      | succ c =>
        have e1 : ((c + 1 : Nat) : Int) - 1 = (c : Int) := by push_cast; ring
        rw [e1]
        refine ⟨fun _ => ?_, fun hc => by omega⟩
        simp only [Int.toNat_ofNat]
        refine ⟨?_, by omega⟩
        have : d * 2 ^ c ≤ 2 ^ (b + 1) * 2 ^ c := Nat.mul_le_mul_right _ (le_of_lt b2)
        have h5 : 2 ^ (b + 1) * 2 ^ c = 2 ^ (b + (c + 1)) := by rw [← pow_add]; ring_nf
        have h6 : d * 2 ^ c < 2 ^ (b + 1) * 2 ^ c :=
          Nat.mul_lt_mul_of_lt_of_le b2 (le_refl _) (by positivity)
        omega
  · obtain ⟨c, rfl⟩ := Nat.exists_eq_add_of_lt (not_le.1 hab)
    have e0 : (a : Int) - ((a + c + 1 : Nat) : Int) = -((c + 1 : Nat) : Int) := by
      push_cast; ring
    rw [e0]
    rw [if_neg (by omega)]
    simp only [neg_neg, Int.toNat_ofNat]
    have hp : 2 ^ (a + 1) * 2 ^ (c + 1) = 2 * 2 ^ (a + c + 1) := by
      rw [← pow_add]; ring_nf
    have hq : 2 ^ (a + c + 1 + 1) = 2 ^ a * 2 ^ (c + 2) := by rw [← pow_add]; ring_nf
    have hr : n * 2 ^ (c + 2) = 2 * (n * 2 ^ (c + 1)) := by ring
    split_ifs with h1
    · refine ⟨fun hc => by omega, fun _ => ?_⟩
      simp only [neg_neg, Int.toNat_ofNat]
      refine ⟨h1, ?_⟩
      have : n * 2 ^ (c + 1) < 2 ^ (a + 1) * 2 ^ (c + 1) :=
        Nat.mul_lt_mul_of_lt_of_le a2 (le_refl _) (by positivity)
      omega
    · have e1 : -((c + 1 : Nat) : Int) - 1 = -((c + 2 : Nat) : Int) := by push_cast; ring
      rw [e1]
      refine ⟨fun hc => by omega, fun _ => ?_⟩
      simp only [neg_neg, Int.toNat_ofNat]
      have : 2 ^ a * 2 ^ (c + 2) ≤ n * 2 ^ (c + 2) := Nat.mul_le_mul_right _ a1
      constructor
      · omega
      · omega

/-! ## The peak loop: counters and recorded intervals (C12, C13) -/

theorem peakInv_step (buf : List Nat) (thr : Nat) (i : Nat) (st : PeakScan)
    (h : PeakInv i st) : PeakInv (i + 1) (peakStepAt buf thr st i) := by
  unfold peakStepAt
  by_cases hp : buf.getD i 0 > buf.getD (i - 1) 0 ∧ buf.getD i 0 > buf.getD (i + 1) 0 ∧
      buf.getD i 0 > thr
  · rw [if_pos hp]
    rcases h with ⟨h1, h2, h3⟩ | ⟨h1, h2, h3, h4, h5, h6⟩
    · right
      have hc : ¬ (0 ≤ st.lastPeakIndex ∧ st.peakIntervals.length < 10) := by
        rw [h2]; intro hc; exact absurd hc.1 (by decide)
      rw [if_neg hc]
      simp only [h1, h3]
      refine ⟨by omega, by omega, by push_cast; omega, ?_, ?_, ?_⟩
      · simp
      · simp
      · simp
    · right
      by_cases hc : 0 ≤ st.lastPeakIndex ∧ st.peakIntervals.length < 10
      · simp only [if_pos hc]
        refine ⟨by omega, by omega, by push_cast; omega, ?_, ?_, ?_⟩
        · rw [List.length_append, List.length_singleton]
          have := hc.2
          push_cast
          omega
        · intro d hd
          rcases List.mem_append.1 hd with hd | hd
          · exact h5 d hd
          · simp at hd; omega
        · rw [List.sum_append, List.sum_singleton]; omega
      · simp only [if_neg hc]
        have hlen : ¬ st.peakIntervals.length < 10 := fun hl => hc ⟨h2, hl⟩
        refine ⟨by omega, by omega, by push_cast; omega, by omega, h5, by omega⟩
  · rw [if_neg hp]
    rcases h with h | ⟨h1, h2, h3, h4, h5, h6⟩
    · exact Or.inl h
    · exact Or.inr ⟨h1, h2, by push_cast; omega, h4, h5, h6⟩

theorem peakInv_foldl (buf : List Nat) (thr : Nat) (m : Nat) :
    ∀ (s : Nat) (st : PeakScan), PeakInv s st →
      PeakInv (s + m) ((List.range' s m).foldl (peakStepAt buf thr) st) := by
  induction m with
  | zero => intro s st h; simpa using h
  | succ m ih =>
    intro s st h
    rw [List.range'_succ, List.foldl_cons]
    have := ih (s + 1) _ (peakInv_step buf thr s st h)
    rw [show s + (m + 1) = s + 1 + m by omega]
    exact this

/-- The invariant holds when the peak loop ends. -/
theorem peakInv_peakScan (buf : List Nat) (n thr : Nat) :
    PeakInv (1 + (n - 2)) (peakScan buf n thr) :=
  peakInv_foldl buf thr (n - 2) 1 _ (Or.inl ⟨rfl, rfl, rfl⟩)

/-- The `int32_t` accumulation of non-negative intervals whose sum fits is the sum. -/
theorem foldl_wrap_sum (l : List Int) : ∀ acc : Int, 0 ≤ acc → (∀ d ∈ l, 0 ≤ d) →
    acc + l.sum ≤ 2147483647 →
    l.foldl (fun a d => wrap32 (a + d)) acc = acc + l.sum := by
  induction l with
  | nil => intro acc _ _ _; simp
  | cons x l ih =>
    intro acc h0 hd hs
    rw [List.foldl_cons, List.sum_cons] at *
    have hx := hd x (List.mem_cons_self x l)
    have hl : 0 ≤ l.sum := List.sum_nonneg (fun d hd' => hd d (List.mem_cons_of_mem x hd'))
    have hw : wrap32 (acc + x) = acc + x := wrap32_of_fits _ (by unfold fits32; omega)
    rw [hw, ih (acc + x) (by omega) (fun d hd' => hd d (List.mem_cons_of_mem x hd'))
      (by omega)]
    omega

theorem hrFromIntervals_eq (l : List Int) :
    hrFromIntervals l =
      hrFromAvg (Int.tdiv (l.foldl (fun a d => wrap32 (a + d)) 0) (l.length : Int)) := rfl

/-! ## Rounding error of the floating-point model (C12, C13) -/

/-- In the normal range a rounding to `p = q + 1` bits moves the value by at most the
fraction `2 ^ -p` of itself (stated without fractions). -/
theorem roundNat_rel (q : Nat) (emin : Int) (n d : Nat) (hn : 0 < n) (hd : 0 < d)
    (hnorm : emin ≤ floorLog2 n d) :
    (2 : Int) ^ (q + 1) * |(roundNat (q + 1) emin n d).num * (d : Int) -
        (n : Int) * ((roundNat (q + 1) emin n d).den : Int)| ≤
      (n : Int) * ((roundNat (q + 1) emin n d).den : Int) := by
  obtain ⟨s1, s2⟩ := floorLog2_spec n d hn hd
  unfold roundNat
  rw [if_neg (by omega)]
  simp only []
  rw [if_pos hnorm]
  generalize floorLog2 n d = e at *
  have hpq : (((q + 1 : Nat) : Int) - 1) = (q : Int) := by push_cast; ring
  rw [hpq]
  by_cases hk : 0 ≤ e - (q : Int)
  · simp only [if_pos hk]
    obtain ⟨K, hK⟩ := Int.eq_ofNat_of_zero_le hk
    have he : e = ((K + q : Nat) : Int) := by push_cast; omega
    subst he
    rw [hK]
    simp only [Int.toNat_ofNat]
    have h1 := (s1 (by omega)).1
    simp only [Int.toNat_ofNat] at h1
    obtain ⟨a1, a2, _⟩ := nearestEven_spec n (d * 2 ^ K) (by positivity)
    generalize nearestEven n (d * 2 ^ K) = m at a1 a2 ⊢
    have hD : (d : Int) * 2 ^ K * 2 ^ q ≤ n := by
      have : d * 2 ^ K * 2 ^ q ≤ n := by rw [mul_assoc, ← pow_add]; exact h1
      exact_mod_cast this
    push_cast at a1 a2 ⊢
    have hT : (0 : Int) < 2 ^ q := by positivity
    have habs : 2 * |(m : Int) * 2 ^ K * d - n * 1| ≤ (d : Int) * 2 ^ K := by
      rcases abs_cases ((m : Int) * 2 ^ K * d - n * 1) with ⟨h, _⟩ | ⟨h, _⟩ <;> rw [h] <;>
        nlinarith
    calc (2 : Int) ^ (q + 1) * |(m : Int) * 2 ^ K * d - n * 1|
        = 2 ^ q * (2 * |(m : Int) * 2 ^ K * d - n * 1|) := by rw [pow_succ]; ring
      _ ≤ 2 ^ q * ((d : Int) * 2 ^ K) := by
          exact mul_le_mul_of_nonneg_left habs (le_of_lt hT)
      _ = (d : Int) * 2 ^ K * 2 ^ q := by ring
      _ ≤ n := hD
      _ = n * 1 := by ring
  · simp only [if_neg hk]
    obtain ⟨J, hJ⟩ := Int.eq_ofNat_of_zero_le (show 0 ≤ -(e - (q : Int)) by omega)
    rw [hJ]
    simp only [Int.toNat_ofNat]
    obtain ⟨a1, a2, _⟩ := nearestEven_spec (n * 2 ^ J) d hd
    generalize nearestEven (n * 2 ^ J) d = m at a1 a2 ⊢
    have hD : (d : Int) * 2 ^ q ≤ n * 2 ^ J := by
      by_cases he : 0 ≤ e
      · obtain ⟨E, hE⟩ := Int.eq_ofNat_of_zero_le he
        subst hE
        have h1 := (s1 he).1
        simp only [Int.toNat_ofNat] at h1
        have hq : q = E + J := by omega
        have : d * 2 ^ q ≤ n * 2 ^ J := by
          rw [hq, pow_add, ← mul_assoc]
          exact Nat.mul_le_mul_right _ h1
        exact_mod_cast this
      · obtain ⟨E, hE⟩ := Int.eq_ofNat_of_zero_le (show 0 ≤ -e by omega)
        have h1 := (s2 (by omega)).1
        rw [hE] at h1
        simp only [Int.toNat_ofNat] at h1
        have hq : J = q + E := by omega
        have : d * 2 ^ q ≤ n * 2 ^ J := by
          rw [hq, pow_add, mul_comm (2 ^ q) (2 ^ E), ← mul_assoc]
          exact Nat.mul_le_mul_right _ h1
        exact_mod_cast this
    push_cast at a1 a2 ⊢
    have hT : (0 : Int) < 2 ^ q := by positivity
    have habs : 2 * |(m : Int) * d - n * 2 ^ J| ≤ (d : Int) := by
      rcases abs_cases ((m : Int) * d - n * 2 ^ J) with ⟨h, _⟩ | ⟨h, _⟩ <;> rw [h] <;>
        nlinarith
    calc (2 : Int) ^ (q + 1) * |(m : Int) * d - n * 2 ^ J|
        = 2 ^ q * (2 * |(m : Int) * d - n * 2 ^ J|) := by rw [pow_succ]; ring
      _ ≤ 2 ^ q * (d : Int) := mul_le_mul_of_nonneg_left habs (le_of_lt hT)
      _ = (d : Int) * 2 ^ q := by ring
      _ ≤ n * 2 ^ J := hD

theorem floorLog2_ge (n d J : Nat) (hn : 0 < n) (hd : 0 < d) (h : d ≤ n * 2 ^ J) :
    -(J : Int) ≤ floorLog2 n d := by
  obtain ⟨_, s2⟩ := floorLog2_spec n d hn hd
  by_contra hc
  have hneg : floorLog2 n d < 0 := by omega
  obtain ⟨E, hE⟩ := Int.eq_ofNat_of_zero_le (show 0 ≤ -floorLog2 n d by omega)
  have h2 := (s2 hneg).2
  rw [hE] at h2
  simp only [Int.toNat_ofNat] at h2
  obtain ⟨c, hc2⟩ : ∃ c, E = J + 1 + c := ⟨E - (J + 1), by omega⟩
  rw [hc2, pow_add, pow_succ] at h2
  have : n * 2 ^ J ≤ n * 2 ^ J * 2 ^ c := Nat.le_mul_of_pos_right _ (by positivity)
  have e : n * (2 ^ J * 2 * 2 ^ c) = 2 * (n * 2 ^ J * 2 ^ c) := by ring
  omega

theorem Frac.toRat_mul (a b : Frac) : (a.mul b).toRat = a.toRat * b.toRat := by
  unfold Frac.mul Frac.toRat
  push_cast
  rw [mul_div_mul_comm]

theorem Frac.toRat_div (a b : Frac) (hb : 0 < b.num) :
    (a.div b).toRat = a.toRat / b.toRat := by
  unfold Frac.div Frac.toRat
  have h1 : Int.sign b.num = 1 := Int.sign_eq_one_of_pos hb
  have h2 : ((b.num.natAbs : Nat) : ℚ) = (b.num : ℚ) := by
    rw [Nat.cast_natAbs, abs_of_pos hb]
  rw [h1]
  push_cast
  rw [h2, mul_one, div_div_div_eq]

theorem Frac.toRat_ofInt (z : Int) : (Frac.ofInt z).toRat = (z : ℚ) := by
  unfold Frac.ofInt Frac.toRat
  simp

/-- Relative error of a rounding in the normal range: the result is positive and
within `2 ^ -p` of the argument, relatively. -/
theorem roundFrac_bounds (q J : Nat) (a : Frac) (hn : 0 < a.num) (hd : 0 < a.den)
    (hlow : (1 : ℚ) / 2 ^ J ≤ a.toRat) :
    0 < (roundFrac (q + 1) (-(J : Int)) a).num ∧ 0 < (roundFrac (q + 1) (-(J : Int)) a).den ∧
    a.toRat * (1 - 1 / 2 ^ (q + 1)) ≤ (roundFrac (q + 1) (-(J : Int)) a).toRat ∧
    (roundFrac (q + 1) (-(J : Int)) a).toRat ≤ a.toRat * (1 + 1 / 2 ^ (q + 1)) := by
  obtain ⟨n, hnn⟩ := Int.eq_ofNat_of_zero_le (le_of_lt hn)
  have hn0 : 0 < n := by omega
  have hdq : (0 : ℚ) < (a.den : ℚ) := by exact_mod_cast hd
  have hnq : (0 : ℚ) < (n : ℚ) := by exact_mod_cast hn0
  have hat : a.toRat = (n : ℚ) / (a.den : ℚ) := by
    unfold Frac.toRat; rw [hnn]; simp
  have hint : a.den ≤ n * 2 ^ J := by
    rw [hat, div_le_div_iff₀ (by positivity) hdq] at hlow
    have : (a.den : ℚ) ≤ (n : ℚ) * 2 ^ J := by linarith
    exact_mod_cast this
  have hnorm := floorLog2_ge n a.den J hn0 hd hint
  have hr : roundFrac (q + 1) (-(J : Int)) a = roundNat (q + 1) (-(J : Int)) n a.den := by
    unfold roundFrac
    simp only []
    rw [if_neg (by omega), hnn]
    simp
  rw [hr]
  have hrel := roundNat_rel q (-(J : Int)) n a.den hn0 hd hnorm
  have hden := roundNat_den_pos (q + 1) (-(J : Int)) n a.den
  generalize roundNat (q + 1) (-(J : Int)) n a.den = r at hrel hden ⊢
  have hrd : (0 : ℚ) < (r.den : ℚ) := by exact_mod_cast hden
  have hP : (0 : ℚ) < 2 ^ (q + 1) := by positivity
  have hrelq : (2 : ℚ) ^ (q + 1) * |(r.num : ℚ) * a.den - n * r.den| ≤ n * r.den := by
    exact_mod_cast hrel
  have habs := abs_le.1 (show |(r.num : ℚ) * a.den - n * r.den| ≤ n * r.den / 2 ^ (q + 1) by
    rw [le_div_iff₀ hP]; linarith)
  have key1 : a.toRat * (1 - 1 / 2 ^ (q + 1)) ≤ r.toRat := by
    rw [hat]
    unfold Frac.toRat
    rw [div_mul_eq_mul_div, div_le_div_iff₀ hdq hrd]
    have := habs.1
    have e : (n : ℚ) * r.den / 2 ^ (q + 1) = n * (1 / 2 ^ (q + 1)) * r.den := by
      field_simp
    nlinarith
  have key2 : r.toRat ≤ a.toRat * (1 + 1 / 2 ^ (q + 1)) := by
    rw [hat]
    unfold Frac.toRat
    rw [div_mul_eq_mul_div, div_le_div_iff₀ hrd hdq]
    have := habs.2
    have e : (n : ℚ) * r.den / 2 ^ (q + 1) = n * (1 / 2 ^ (q + 1)) * r.den := by
      field_simp
    nlinarith
  refine ⟨?_, hden, key1, key2⟩
  have hpos : (0 : ℚ) < r.toRat := by
    refine lt_of_lt_of_le ?_ key1
    have : (1 : ℚ) / 2 ^ (q + 1) < 1 := by
      rw [div_lt_one hP]
      exact one_lt_pow₀ (by norm_num) (by omega)
    have : (0 : ℚ) < a.toRat := by rw [hat]; positivity
    nlinarith
  unfold Frac.toRat at hpos
  have := (div_pos_iff_of_pos_right hrd).1 hpos
  exact_mod_cast this

theorem round32_bounds (a : Frac) (hn : 0 < a.num) (hd : 0 < a.den)
    (hlow : (1 : ℚ) / 2 ^ 126 ≤ a.toRat) :
    0 < (round32 a).num ∧ 0 < (round32 a).den ∧
    a.toRat * (1 - 1 / 2 ^ 24) ≤ (round32 a).toRat ∧
    (round32 a).toRat ≤ a.toRat * (1 + 1 / 2 ^ 24) :=
  roundFrac_bounds 23 126 a hn hd hlow

theorem round64_bounds (a : Frac) (hn : 0 < a.num) (hd : 0 < a.den)
    (hlow : (1 : ℚ) / 2 ^ 1022 ≤ a.toRat) :
    0 < (round64 a).num ∧ 0 < (round64 a).den ∧
    a.toRat * (1 - 1 / 2 ^ 53) ≤ (round64 a).toRat ∧
    (round64 a).toRat ≤ a.toRat * (1 + 1 / 2 ^ 53) :=
  roundFrac_bounds 52 1022 a hn hd hlow

theorem Frac.toRat_pos (a : Frac) (hn : 0 < a.num) (hd : 0 < a.den) : 0 < a.toRat := by
  unfold Frac.toRat
  have h1 : (0 : ℚ) < (a.num : ℚ) := by exact_mod_cast hn
  have h2 : (0 : ℚ) < (a.den : ℚ) := by exact_mod_cast hd
  positivity

/-- Truncation of a positive value below an integer bound. -/
theorem truncI32_lt (a : Frac) (hn : 0 < a.num) (hd : 0 < a.den) (B : Nat)
    (hB : (B : Int) ≤ 2147483647) (h : a.toRat < (B : ℚ)) :
    0 ≤ truncI32 a ∧ truncI32 a < (B : Int) := by
  unfold truncI32
  have hdq : (0 : ℚ) < (a.den : ℚ) := by exact_mod_cast hd
  have h1 : a.num < (B : Int) * (a.den : Int) := by
    unfold Frac.toRat at h
    rw [div_lt_iff₀ hdq] at h
    exact_mod_cast h
  have h2 : Int.tdiv a.num (a.den : Int) = a.num / (a.den : Int) :=
    Int.tdiv_eq_ediv (le_of_lt hn) (by omega)
  have h3 : a.num / (a.den : Int) < (B : Int) :=
    Int.ediv_lt_of_lt_mul (by exact_mod_cast hd) h1
  have h4 : 0 ≤ a.num / (a.den : Int) := Int.ediv_nonneg (le_of_lt hn) (by omega)
  rw [h2, wrap32_of_fits _ (by unfold fits32; omega)]
  exact ⟨h4, h3⟩

theorem round64_tenth : round64 ⟨1, 10⟩ = ⟨7205759403792794, 72057594037927936⟩ := by
  decide

theorem round32_small (P : Int) (hP : P = 1 ∨ P = 2) :
    0 < (round32 (Frac.ofInt P)).num ∧ 0 < (round32 (Frac.ofInt P)).den ∧
    (round32 (Frac.ofInt P)).toRat = (P : ℚ) := by
  rcases hP with rfl | rfl
  · have h : round32 (Frac.ofInt 1) = ⟨8388608, 8388608⟩ := by decide
    rw [h]; refine ⟨by decide, by decide, ?_⟩
    unfold Frac.toRat; norm_num
  · have h : round32 (Frac.ofInt 2) = ⟨8388608, 4194304⟩ := by decide
    rw [h]; refine ⟨by decide, by decide, ?_⟩
    unfold Frac.toRat; norm_num

theorem tiny_le_of_one_le (J : Nat) (x : ℚ) (h : 1 ≤ x) : (1 : ℚ) / 2 ^ J ≤ x := by
  refine le_trans ?_ h
  rw [div_le_one (by positivity)]
  exact one_le_pow₀ (by norm_num)

/-- The value of `float time_seconds = n * 0.1` for an `int32_t` window length
`n ≥ 25` lies between 2.4999 and `0.11 * n`. -/
theorem time_seconds_bounds (n : Int) (hn : 25 ≤ n) :
    0 < (round32 (round64 ((Frac.ofInt n).mul (round64 ⟨1, 10⟩)))).num ∧
    0 < (round32 (round64 ((Frac.ofInt n).mul (round64 ⟨1, 10⟩)))).den ∧
    (24999 / 10000 : ℚ) ≤ (round32 (round64 ((Frac.ofInt n).mul (round64 ⟨1, 10⟩)))).toRat ∧
    (round32 (round64 ((Frac.ofInt n).mul (round64 ⟨1, 10⟩)))).toRat ≤ 11 / 100 * (n : ℚ) := by
  rw [round64_tenth]
  have hnq : (25 : ℚ) ≤ (n : ℚ) := by exact_mod_cast hn
  have h0n : 0 < ((Frac.ofInt n).mul ⟨7205759403792794, 72057594037927936⟩).num := by
    unfold Frac.mul Frac.ofInt; simp only []; omega
  have h0d : 0 < ((Frac.ofInt n).mul ⟨7205759403792794, 72057594037927936⟩).den := by
    unfold Frac.mul Frac.ofInt; simp
  have h0v : ((Frac.ofInt n).mul ⟨7205759403792794, 72057594037927936⟩).toRat =
      (n : ℚ) * (7205759403792794 / 72057594037927936) := by
    rw [Frac.toRat_mul, Frac.toRat_ofInt]; unfold Frac.toRat; norm_num
  generalize (Frac.ofInt n).mul ⟨7205759403792794, 72057594037927936⟩ = t0 at h0n h0d h0v
  obtain ⟨h1n, h1d, h1l, h1u⟩ := round64_bounds t0 h0n h0d
    (tiny_le_of_one_le _ _ (by rw [h0v]; linarith))
  generalize round64 t0 = t1 at h1n h1d h1l h1u
  have ht1 : (1 : ℚ) ≤ t1.toRat := by
    refine le_trans ?_ h1l
    rw [h0v]; norm_num; linarith
  obtain ⟨h2n, h2d, h2l, h2u⟩ := round32_bounds t1 h1n h1d (tiny_le_of_one_le _ _ ht1)
  refine ⟨h2n, h2d, ?_, ?_⟩
  · refine le_trans ?_ h2l
    have : (24999 / 10000 : ℚ) ≤ t0.toRat * (1 - 1 / 2 ^ 53) * (1 - 1 / 2 ^ 24) := by
      rw [h0v]; norm_num; linarith
    refine le_trans this ?_
    exact mul_le_mul_of_nonneg_right h1l (by norm_num)
  · refine le_trans h2u ?_
    have : t1.toRat * (1 + 1 / 2 ^ 24) ≤ t0.toRat * (1 + 1 / 2 ^ 53) * (1 + 1 / 2 ^ 24) :=
      mul_le_mul_of_nonneg_right h1u (by norm_num)
    refine le_trans this ?_
    rw [h0v]; norm_num; linarith

/-- The fallback estimate for one or two peaks in a window of `n ≥ 25` samples is at
most 48. -/
theorem hrFromPeaks_le (P n : Int) (hP : P = 1 ∨ P = 2) (hn : 25 ≤ n)
    (hn2 : n ≤ 2147483647) : 0 ≤ hrFromPeaks P n ∧ hrFromPeaks P n ≤ 48 := by
  unfold hrFromPeaks
  simp only []
  obtain ⟨tn, td, tl, tu⟩ := time_seconds_bounds n hn
  generalize round32 (round64 ((Frac.ofInt n).mul (round64 ⟨1, 10⟩))) = ts at tn td tl tu
  obtain ⟨pn, pd, pv⟩ := round32_small P hP
  generalize round32 (Frac.ofInt P) = fP at pn pd pv
  have hPq : (1 : ℚ) ≤ (P : ℚ) ∧ (P : ℚ) ≤ 2 := by
    rcases hP with rfl | rfl <;> norm_num
  have hnq : (n : ℚ) ≤ 2147483647 := by exact_mod_cast hn2
  have tpos : (0 : ℚ) < ts.toRat := by linarith
  -- the quotient peaks / time_seconds
  have qn : 0 < (fP.div ts).num := by
    unfold Frac.div
    simp only [Int.sign_eq_one_of_pos tn, mul_one]
    have : (0 : Int) < (ts.den : Int) := by exact_mod_cast td
    positivity
  have qd : 0 < (fP.div ts).den := by
    unfold Frac.div
    simp only []
    have : 0 < ts.num.natAbs := Int.natAbs_pos.2 (by omega)
    positivity
  have qv : (fP.div ts).toRat = (P : ℚ) / ts.toRat := by rw [Frac.toRat_div _ _ tn, pv]
  have qu : (fP.div ts).toRat ≤ 8001 / 10000 := by
    rw [qv, div_le_iff₀ tpos]; nlinarith
  have ql : (1 : ℚ) / 2 ^ 31 ≤ (fP.div ts).toRat := by
    rw [qv, div_le_div_iff₀ (by norm_num) tpos]; norm_num; nlinarith
  generalize fP.div ts = q0 at qn qd qu ql
  obtain ⟨an, ad, al, au⟩ := round32_bounds q0 qn qd (le_trans (by norm_num) ql)
  generalize round32 q0 = A at an ad al au
  have Al : (1 : ℚ) / 2 ^ 32 ≤ A.toRat := by
    refine le_trans ?_ al
    have : (1 : ℚ) / 2 ^ 31 * (1 - 1 / 2 ^ 24) ≤ q0.toRat * (1 - 1 / 2 ^ 24) :=
      mul_le_mul_of_nonneg_right ql (by norm_num)
    refine le_trans ?_ this
    norm_num
  have Au : A.toRat ≤ 8002 / 10000 := by
    refine le_trans au ?_
    have : q0.toRat * (1 + 1 / 2 ^ 24) ≤ 8001 / 10000 * (1 + 1 / 2 ^ 24) :=
      mul_le_mul_of_nonneg_right qu (by norm_num)
    refine le_trans this ?_
    norm_num
  have bn : 0 < (A.mul (Frac.ofInt 60)).num := by
    unfold Frac.mul Frac.ofInt; simp only []; omega
  have bd : 0 < (A.mul (Frac.ofInt 60)).den := by
    unfold Frac.mul Frac.ofInt; simp only []; omega
  have bv : (A.mul (Frac.ofInt 60)).toRat = A.toRat * 60 := by
    rw [Frac.toRat_mul, Frac.toRat_ofInt]; norm_num
  generalize A.mul (Frac.ofInt 60) = B at bn bd bv
  obtain ⟨vn, vd, _, vu⟩ := round32_bounds B bn bd
    (by rw [bv]; refine le_trans ?_ (mul_le_mul_of_nonneg_right Al (by norm_num)); norm_num)
  have hV : (round32 B).toRat < ((49 : Nat) : ℚ) := by
    refine lt_of_le_of_lt vu ?_
    rw [bv]
    have : A.toRat * 60 * (1 + 1 / 2 ^ 24) ≤ 8002 / 10000 * 60 * (1 + 1 / 2 ^ 24) :=
      mul_le_mul_of_nonneg_right (mul_le_mul_of_nonneg_right Au (by norm_num)) (by norm_num)
    refine lt_of_le_of_lt this ?_
    norm_num
  have := truncI32_lt (round32 B) vn vd 49 (by norm_num) hV
  exact ⟨this.1, by have := this.2; push_cast at this; omega⟩

/-- Truncation of a positive value lying in `[q, q + 1)`. -/
theorem truncI32_eq (a : Frac) (hn : 0 < a.num) (hd : 0 < a.den) (q : Int) (hq0 : 0 ≤ q)
    (hq : q ≤ 2147483646) (h1 : (q : ℚ) ≤ a.toRat) (h2 : a.toRat < (q : ℚ) + 1) :
    truncI32 a = q := by
  unfold truncI32
  have hdq : (0 : ℚ) < (a.den : ℚ) := by exact_mod_cast hd
  have hdi : (0 : Int) < (a.den : Int) := by exact_mod_cast hd
  unfold Frac.toRat at h1 h2
  rw [le_div_iff₀ hdq] at h1
  rw [div_lt_iff₀ hdq] at h2
  have i1 : q * (a.den : Int) ≤ a.num := by exact_mod_cast h1
  have i2 : a.num < (q + 1) * (a.den : Int) := by exact_mod_cast h2
  have h3 : Int.tdiv a.num (a.den : Int) = a.num / (a.den : Int) :=
    Int.tdiv_eq_ediv (le_of_lt hn) (by omega)
  have h4 : a.num / (a.den : Int) < q + 1 := Int.ediv_lt_of_lt_mul hdi i2
  have h5 : q ≤ a.num / (a.den : Int) := Int.le_ediv_of_mul_le hdi i1
  rw [h3, wrap32_of_fits _ (by unfold fits32; omega)]
  omega

theorem timePerSample_val : timePerSample = ⟨13421773, 134217728⟩ := by decide

/-- The interval path in a band: when `q * a ≤ 599` and `601 ≤ (q + 1) * a` the value
computed for the average interval `a` is `q`. -/
theorem hrFromAvg_band (a q : Int) (ha : 1 ≤ a) (ha2 : a ≤ 2147483647) (hq : 0 ≤ q)
    (h1 : q * a ≤ 599) (h2 : 601 ≤ (q + 1) * a) : hrFromAvg a = q := by
  unfold hrFromAvg
  rw [timePerSample_val]
  have haq : (1 : ℚ) ≤ (a : ℚ) := by exact_mod_cast ha
  have haq2 : (a : ℚ) ≤ 2147483647 := by exact_mod_cast ha2
  have hqq : (0 : ℚ) ≤ (q : ℚ) := by exact_mod_cast hq
  have h1q : (q : ℚ) * a ≤ 599 := by exact_mod_cast h1
  have h2q : (601 : ℚ) ≤ ((q : ℚ) + 1) * a := by exact_mod_cast h2
  have hq600 : q ≤ 599 := by nlinarith
  -- (float)avgInterval
  obtain ⟨fn, fd, fl, fu⟩ := round32_bounds (Frac.ofInt a) (by unfold Frac.ofInt; simpa using ha)
    (by unfold Frac.ofInt; simp) (tiny_le_of_one_le _ _ (by rw [Frac.toRat_ofInt]; exact haq))
  rw [Frac.toRat_ofInt] at fl fu
  generalize round32 (Frac.ofInt a) = fa at fn fd fl fu
  -- avgInterval * timePerSample
  have xn : 0 < (fa.mul ⟨13421773, 134217728⟩).num := by
    unfold Frac.mul; simp only []; omega
  have xd : 0 < (fa.mul ⟨13421773, 134217728⟩).den := by
    unfold Frac.mul; simp only []; omega
  have xv : (fa.mul ⟨13421773, 134217728⟩).toRat = fa.toRat * (13421773 / 134217728) := by
    rw [Frac.toRat_mul]; unfold Frac.toRat; norm_num
  generalize fa.mul ⟨13421773, 134217728⟩ = x0 at xn xd xv
  have x0l : (a : ℚ) * (1 - 1 / 2 ^ 24) * (13421773 / 134217728) ≤ x0.toRat := by
    rw [xv]; exact mul_le_mul_of_nonneg_right fl (by norm_num)
  have x0u : x0.toRat ≤ (a : ℚ) * (1 + 1 / 2 ^ 24) * (13421773 / 134217728) := by
    rw [xv]; exact mul_le_mul_of_nonneg_right fu (by norm_num)
  obtain ⟨sn, sd, sl, su⟩ := round32_bounds x0 xn xd
    (le_trans (by norm_num; linarith) x0l)
  generalize round32 x0 = x at sn sd sl su
  have xl : (a : ℚ) * (9999998 / 100000000) ≤ x.toRat := by
    refine le_trans ?_ sl
    refine le_trans ?_ (mul_le_mul_of_nonneg_right x0l (by norm_num))
    norm_num; linarith
  have xu : x.toRat ≤ (a : ℚ) * (10000002 / 100000000) := by
    refine le_trans su ?_
    refine le_trans (mul_le_mul_of_nonneg_right x0u (by norm_num)) ?_
    norm_num; linarith
  have xpos : (0 : ℚ) < x.toRat := by linarith
  -- 60.0 / intervalSeconds
  have yn : 0 < ((Frac.ofInt 60).div x).num := by
    unfold Frac.div Frac.ofInt
    simp only [Int.sign_eq_one_of_pos sn, mul_one]
    have : (0 : Int) < (x.den : Int) := by exact_mod_cast sd
    positivity
  have yd : 0 < ((Frac.ofInt 60).div x).den := by
    unfold Frac.div Frac.ofInt
    simp only []
    have : 0 < x.num.natAbs := Int.natAbs_pos.2 (by omega)
    positivity
  have yv : ((Frac.ofInt 60).div x).toRat = 60 / x.toRat := by
    rw [Frac.toRat_div _ _ sn, Frac.toRat_ofInt]; norm_num
  have yl0 : (1 : ℚ) / 2 ^ 31 ≤ ((Frac.ofInt 60).div x).toRat := by
    rw [yv, div_le_div_iff₀ (by norm_num) xpos]; norm_num; nlinarith
  generalize (Frac.ofInt 60).div x = y0 at yn yd yv yl0
  obtain ⟨rn, rd, rl, ru⟩ := round64_bounds y0 yn yd (le_trans (by norm_num) yl0)
  refine truncI32_eq _ rn rd q hq (by omega) ?_ ?_
  · refine le_trans ?_ rl
    rw [yv, div_mul_eq_mul_div, le_div_iff₀ xpos]
    have : (q : ℚ) * x.toRat ≤ q * ((a : ℚ) * (10000002 / 100000000)) :=
      mul_le_mul_of_nonneg_left xu hqq
    refine le_trans this ?_
    norm_num
    nlinarith
  · refine lt_of_le_of_lt ru ?_
    rw [yv, div_mul_eq_mul_div, div_lt_iff₀ xpos]
    have : ((q : ℚ) + 1) * ((a : ℚ) * (9999998 / 100000000)) ≤ ((q : ℚ) + 1) * x.toRat :=
      mul_le_mul_of_nonneg_left xl (by linarith)
    refine lt_of_lt_of_le ?_ this
    norm_num
    nlinarith

/-! ## The interval path and `600 / avgInterval` (C12) -/

set_option maxRecDepth 100000 in
theorem divisors600_complete : ∀ k : Nat, k < 601 → 600 % k = 0 → k ∈ divisors600 := by
  decide

set_option maxRecDepth 100000 in
theorem hrFromAvgNear_divisors : ∀ k ∈ divisors600, hrFromAvgNear k = true := by
  decide

/-- For every average interval `a` in the `int32_t` range the interval path yields
`600 / a` or one less, and exactly `600 / a` when `a` does not divide 600. -/
theorem hrFromAvg_cases (a : Int) (ha : 1 ≤ a) (ha2 : a ≤ 2147483647) :
    (hrFromAvg a = 600 / a ∨ hrFromAvg a = 600 / a - 1) ∧
    (600 % a ≠ 0 → hrFromAvg a = 600 / a) := by
  have hpos : (0 : Int) < a := by omega
  have key : 600 % a ≠ 0 → hrFromAvg a = 600 / a := by
    intro hr
    have e1 := Int.ediv_add_emod 600 a
    have e2 := Int.emod_nonneg 600 (show a ≠ 0 by omega)
    have e3 := Int.emod_lt_of_pos 600 hpos
    have e4 : 0 ≤ 600 / a := Int.ediv_nonneg (by norm_num) (by omega)
    refine hrFromAvg_band a (600 / a) ha ha2 e4 ?_ ?_
    · have : 600 / a * a = a * (600 / a) := by ring
      omega
    · have : (600 / a + 1) * a = a * (600 / a) + a := by ring
      omega
  refine ⟨?_, key⟩
  by_cases hr : 600 % a = 0
  · obtain ⟨k, hk⟩ := Int.eq_ofNat_of_zero_le (le_of_lt hpos)
    subst hk
    have hk600 : k < 601 := by
      have := Int.le_of_dvd (by norm_num) (Int.dvd_of_emod_eq_zero hr)
      omega
    have hmod : 600 % k = 0 := by exact_mod_cast hr
    have := hrFromAvgNear_divisors k (divisors600_complete k hk600 hmod)
    unfold hrFromAvgNear at this
    simpa using this
  · exact Or.inl (key hr)

theorem sum_ge_length (l : List Int) (h : ∀ d ∈ l, 1 ≤ d) : (l.length : Int) ≤ l.sum := by
  induction l with
  | nil => simp
  | cons x l ih =>
    rw [List.sum_cons, List.length_cons]
    have := h x (List.mem_cons_self x l)
    have := ih (fun d hd => h d (List.mem_cons_of_mem x hd))
    push_cast
    omega

/-- On the recorded intervals of a window of `int32_t` length the interval path is
`hrFromAvg` of their integer mean, which is at least 1. -/
theorem hrFromIntervals_peakScan (buf : List Nat) (n : Int) (thr : Nat)
    (hn2 : n ≤ 2147483647) (h2 : 2 ≤ (peakScan buf n.toNat thr).peakIntervals.length) :
    1 ≤ (peakScan buf n.toNat thr).peakIntervals.sum /
        ((peakScan buf n.toNat thr).peakIntervals.length : Int) ∧
    (peakScan buf n.toNat thr).peakIntervals.sum /
        ((peakScan buf n.toNat thr).peakIntervals.length : Int) ≤ 2147483647 ∧
    hrFromIntervals (peakScan buf n.toNat thr).peakIntervals =
      hrFromAvg ((peakScan buf n.toNat thr).peakIntervals.sum /
        ((peakScan buf n.toNat thr).peakIntervals.length : Int)) := by
  have inv := peakInv_peakScan buf n.toNat thr
  generalize peakScan buf n.toNat thr = st at inv h2 ⊢
  rcases inv with ⟨_, _, h3⟩ | ⟨_, i2, i3, _, i5, i6⟩
  · rw [h3] at h2; simp at h2
  · have hlen : (0 : Int) < (st.peakIntervals.length : Int) := by omega
    have hsl := sum_ge_length st.peakIntervals i5
    have hsum : st.peakIntervals.sum ≤ 2147483647 := by
      have : ((1 + (n.toNat - 2) : Nat) : Int) ≤ 2147483647 := by omega
      omega
    have hfold : st.peakIntervals.foldl (fun a d => wrap32 (a + d)) 0 = st.peakIntervals.sum := by
      rw [foldl_wrap_sum st.peakIntervals 0 (le_refl 0) (fun d hd => by have := i5 d hd; omega)
        (by omega)]
      ring
    have htd : Int.tdiv st.peakIntervals.sum (st.peakIntervals.length : Int) =
        st.peakIntervals.sum / (st.peakIntervals.length : Int) :=
      Int.tdiv_eq_ediv (by omega) (by omega)
    refine ⟨?_, ?_, ?_⟩
    · exact Int.le_ediv_of_mul_le hlen (by omega)
    · have := Int.ediv_le_self (st.peakIntervals.length : Int) (show 0 ≤ st.peakIntervals.sum by omega)
      omega
    · rw [hrFromIntervals_eq, hfold, htd]

/-- At most ten intervals are recorded. -/
theorem peakScan_length_le (buf : List Nat) (n thr : Nat) :
    (peakScan buf n thr).peakIntervals.length ≤ 10 := by
  have inv := peakInv_peakScan buf n thr
  generalize peakScan buf n thr = st at inv ⊢
  rcases inv with ⟨_, _, h3⟩ | ⟨_, _, _, i4, _, _⟩
  · rw [h3]; simp
  · omega

/-- C12 (as stated, refuted): two windows of 25 samples with non-zero means and three
recorded intervals. For `pulse6Window` the intervals are `6, 6, 6`, their arithmetic
mean is 6 and the integer part of `60 / (6 * 0.1)` is 100, but the reported heart rate
is 99. For `pulse56Window` the intervals are `5, 6, 5`, their arithmetic mean is
`16 / 3` and the integer part of `60 / (16 / 3 * 0.1)` is 112, but the reported heart
rate is 120. -/
theorem C12_heart_rate_not_from_arithmetic_mean :
    (windowMean pulse6Window 25 = 50320 ∧
      (peakScan pulse6Window 25 (dynamicThreshold pulse6Window 25
        (windowMean pulse6Window 25))).peakIntervals = [6, 6, 6] ∧
      ⌊(60 : ℚ) / ((6 + 6 + 6) / 3 * (1 / 10))⌋ = 100 ∧
      (maxim_heart_rate_and_oxygen_saturation pulse6Window 25 pulse6Window).heart_rate
        = 99) ∧
    (windowMean pulse56Window 25 = 50320 ∧
      (peakScan pulse56Window 25 (dynamicThreshold pulse56Window 25
        (windowMean pulse56Window 25))).peakIntervals = [5, 6, 5] ∧
      ⌊(60 : ℚ) / ((5 + 6 + 5) / 3 * (1 / 10))⌋ = 112 ∧
      (maxim_heart_rate_and_oxygen_saturation pulse56Window 25 pulse56Window).heart_rate
        = 120) := by
  refine ⟨⟨by decide, by decide, ?_, by decide⟩, ⟨by decide, by decide, ?_, by decide⟩⟩
  · rw [Int.floor_eq_iff]; norm_num
  · rw [Int.floor_eq_iff]; norm_num

/-- C12 (amended): for every window of `int32_t` length `n ≥ 25` with non-zero channel
means in which at least two peak-to-peak intervals are recorded, the reported heart
rate is `(int32_t)(60.0 / (a * 0.1f))` computed in floating point from the integer
(truncated) mean `a ≥ 1` of the recorded index deltas (at most ten); it equals `600 / a` (integer
division) when `a` does not divide 600, and `600 / a` or `600 / a - 1` when it does. -/
theorem C12_heart_rate_from_integer_mean (ir red : List Nat) (n : Int) (hn : 25 ≤ n)
    (hn2 : n ≤ 2147483647) (hi : windowMean ir n ≠ 0) (hr : windowMean red n ≠ 0)
    (h2 : 2 ≤ (peakScan ir n.toNat
      (dynamicThreshold ir n.toNat (windowMean ir n))).peakIntervals.length) :
    (peakScan ir n.toNat
      (dynamicThreshold ir n.toNat (windowMean ir n))).peakIntervals.length ≤ 10 ∧
    1 ≤ (peakScan ir n.toNat (dynamicThreshold ir n.toNat (windowMean ir n))).peakIntervals.sum /
        ((peakScan ir n.toNat
          (dynamicThreshold ir n.toNat (windowMean ir n))).peakIntervals.length : Int) ∧
    (maxim_heart_rate_and_oxygen_saturation ir n red).heart_rate =
      hrFromAvg ((peakScan ir n.toNat
          (dynamicThreshold ir n.toNat (windowMean ir n))).peakIntervals.sum /
        ((peakScan ir n.toNat
          (dynamicThreshold ir n.toNat (windowMean ir n))).peakIntervals.length : Int)) ∧
    ((maxim_heart_rate_and_oxygen_saturation ir n red).heart_rate =
        600 / ((peakScan ir n.toNat
            (dynamicThreshold ir n.toNat (windowMean ir n))).peakIntervals.sum /
          ((peakScan ir n.toNat
            (dynamicThreshold ir n.toNat (windowMean ir n))).peakIntervals.length : Int)) ∨
      (maxim_heart_rate_and_oxygen_saturation ir n red).heart_rate =
        600 / ((peakScan ir n.toNat
            (dynamicThreshold ir n.toNat (windowMean ir n))).peakIntervals.sum /
          ((peakScan ir n.toNat
            (dynamicThreshold ir n.toNat (windowMean ir n))).peakIntervals.length : Int)) - 1) ∧
    (600 % ((peakScan ir n.toNat
            (dynamicThreshold ir n.toNat (windowMean ir n))).peakIntervals.sum /
          ((peakScan ir n.toNat
            (dynamicThreshold ir n.toNat (windowMean ir n))).peakIntervals.length : Int)) ≠ 0 →
      (maxim_heart_rate_and_oxygen_saturation ir n red).heart_rate =
        600 / ((peakScan ir n.toNat
            (dynamicThreshold ir n.toNat (windowMean ir n))).peakIntervals.sum /
          ((peakScan ir n.toNat
            (dynamicThreshold ir n.toNat (windowMean ir n))).peakIntervals.length : Int))) := by
  obtain ⟨a1, a2, a3⟩ := hrFromIntervals_peakScan ir n
    (dynamicThreshold ir n.toNat (windowMean ir n)) hn2 h2
  have hhr : (maxim_heart_rate_and_oxygen_saturation ir n red).heart_rate =
      hrFromIntervals (peakScan ir n.toNat
        (dynamicThreshold ir n.toNat (windowMean ir n))).peakIntervals := by
    rw [maxim_main ir red n (by omega) (fun hc => hc.elim hi hr)]
    simp only []
    unfold heartRateBlock
    simp only []
    rw [if_pos h2]
    split_ifs <;> rfl
  rw [hhr, a3]
  obtain ⟨c1, c2⟩ := hrFromAvg_cases _ a1 a2
  exact ⟨peakScan_length_le _ _ _, a1, rfl, c1, c2⟩

set_option maxRecDepth 100000 in
/-- Witness for C12: `pulse56Window` on both channels (intervals `5, 6, 5`, integer
mean 5, which divides 600): the reported heart rate is `600 / 5` or one less. -/
theorem C12_heart_rate_from_integer_mean_witness :
    (maxim_heart_rate_and_oxygen_saturation pulse56Window 25 pulse56Window).heart_rate =
        600 / ((peakScan pulse56Window (25 : Int).toNat (dynamicThreshold pulse56Window
            (25 : Int).toNat (windowMean pulse56Window 25))).peakIntervals.sum /
          ((peakScan pulse56Window (25 : Int).toNat (dynamicThreshold pulse56Window
            (25 : Int).toNat (windowMean pulse56Window 25))).peakIntervals.length : Int)) ∨
      (maxim_heart_rate_and_oxygen_saturation pulse56Window 25 pulse56Window).heart_rate =
        600 / ((peakScan pulse56Window (25 : Int).toNat (dynamicThreshold pulse56Window
            (25 : Int).toNat (windowMean pulse56Window 25))).peakIntervals.sum /
          ((peakScan pulse56Window (25 : Int).toNat (dynamicThreshold pulse56Window
            (25 : Int).toNat (windowMean pulse56Window 25))).peakIntervals.length : Int)) - 1 :=
  (C12_heart_rate_from_integer_mean pulse56Window pulse56Window 25 (by decide) (by decide)
    (by decide) (by decide) (by decide)).2.2.2.1

/-! ## The peak-count fallback (C13) -/

/-- C13: for every window of `int32_t` length `n ≥ 25`: (1) whatever the threshold, if
fewer than two peak intervals were recorded then at most 2 peaks were found, and the
fallback value `(int32_t)((peaks / (n * 0.1)) * 60)` is at most 48, below the 50 bpm
gate; (2) whenever the heart-rate flag is 1, at least 3 peaks were detected, at least
two intervals were recorded and the reported value is the one of the interval path. -/
theorem C13_fallback_never_valid (ir red : List Nat) (n : Int) (hn : 25 ≤ n)
    (hn2 : n ≤ 2147483647) :
    (∀ thr : Nat, (peakScan ir n.toNat thr).peakIntervals.length < 2 →
      (peakScan ir n.toNat thr).peaks ≤ 2 ∧
      (0 < (peakScan ir n.toNat thr).peaks →
        hrFromPeaks (peakScan ir n.toNat thr).peaks n ≤ 48)) ∧
    ((maxim_heart_rate_and_oxygen_saturation ir n red).hr_valid = 1 →
      3 ≤ (peakScan ir n.toNat (dynamicThreshold ir n.toNat (windowMean ir n))).peaks ∧
      2 ≤ (peakScan ir n.toNat
        (dynamicThreshold ir n.toNat (windowMean ir n))).peakIntervals.length ∧
      (maxim_heart_rate_and_oxygen_saturation ir n red).heart_rate =
        hrFromIntervals (peakScan ir n.toNat
          (dynamicThreshold ir n.toNat (windowMean ir n))).peakIntervals) := by
  have part1 : ∀ thr : Nat, (peakScan ir n.toNat thr).peakIntervals.length < 2 →
      (peakScan ir n.toNat thr).peaks ≤ 2 ∧
      (0 < (peakScan ir n.toNat thr).peaks →
        hrFromPeaks (peakScan ir n.toNat thr).peaks n ≤ 48) := by
    intro thr hlt
    have inv := peakInv_peakScan ir n.toNat thr
    generalize peakScan ir n.toNat thr = st at inv hlt ⊢
    rcases inv with ⟨h1, _, _⟩ | ⟨i1, _, _, i4, _, _⟩
    · rw [h1]; exact ⟨by decide, fun hc => absurd hc (by decide)⟩
    · have hp : st.peaks = 1 ∨ st.peaks = 2 := by omega
      exact ⟨by omega, fun _ => (hrFromPeaks_le st.peaks n hp hn hn2).2⟩
  refine ⟨part1, ?_⟩
  intro hv
  rcases maxim_cases ir red n with h | ⟨_, _, _, h⟩
  · rw [h] at hv; exact absurd hv (by decide)
  · rw [h] at hv ⊢
    simp only [] at hv ⊢
    have p1 := part1 (dynamicThreshold ir n.toNat (windowMean ir n))
    have inv := peakInv_peakScan ir n.toNat (dynamicThreshold ir n.toNat (windowMean ir n))
    unfold heartRateBlock at hv ⊢
    simp only [] at hv ⊢
    generalize peakScan ir n.toNat (dynamicThreshold ir n.toNat (windowMean ir n)) = st
      at hv p1 inv ⊢
    by_cases h2 : 2 ≤ st.peakIntervals.length
    · rw [if_pos h2] at hv ⊢
      refine ⟨?_, h2, by split_ifs <;> rfl⟩
      rcases inv with ⟨_, _, h3⟩ | ⟨_, _, _, i4, _, _⟩
      · rw [h3] at h2; simp at h2
      · omega
    · rw [if_neg h2] at hv
      obtain ⟨_, q2⟩ := p1 (by omega)
      by_cases h0 : 0 < st.peaks
      · rw [if_pos h0] at hv
        have := q2 h0
        rw [if_neg (by omega)] at hv
        simp at hv
      · rw [if_neg h0] at hv
        exact absurd hv (by decide)

set_option maxRecDepth 100000 in
/-- Witness for C13: `twoPeakWindow` (25 samples, one recorded interval, two peaks)
has fallback value at most 48, and `pulseWindow`, flagged valid, has at least three
peaks. -/
theorem C13_fallback_never_valid_witness :
    hrFromPeaks (peakScan twoPeakWindow (25 : Int).toNat 50000).peaks 25 ≤ 48 ∧
    3 ≤ (peakScan pulseWindow (25 : Int).toNat
      (dynamicThreshold pulseWindow (25 : Int).toNat (windowMean pulseWindow 25))).peaks :=
  ⟨(((C13_fallback_never_valid twoPeakWindow twoPeakWindow 25 (by decide) (by decide)).1
      50000) (by decide)).2 (by decide),
    ((C13_fallback_never_valid pulseWindow pulseWindow 25 (by decide) (by decide)).2
      (by decide)).1⟩

end MAX30102

namespace DHT11

/-! ## Checksum gate of `DHT11::read` (C11) -/

theorem read_some_isSome (data : Data) :
    (read (some data)).isSome = true ↔
      (data.d0 + data.d1 + data.d2 + data.d3) % 256 = data.d4 := by
  unfold read
  simp only []
  split_ifs with h
  · simp; exact h
  · simp; exact not_not.1 h

theorem countP_eq_one (c n : Nat) (h : c < n) :
    (List.range n).countP (fun b => decide (c = b)) = 1 := by
  have h1 : (List.range n).countP (fun b => decide (c = b)) = (List.range n).count c := by
    unfold List.count
    congr 1
    funext b
    rw [Bool.eq_iff_iff]
    simp only [beq_iff_eq, decide_eq_true_eq]
    exact eq_comm
  rw [h1]
  exact List.count_eq_one_of_mem (List.nodup_range n) (List.mem_range.2 h)

/-- C11: after a completed 5-byte transfer `DHT11::read` returns `true` exactly when
`(byte0 + byte1 + byte2 + byte3) mod 256` equals `byte4`; so for every choice of the
first four bytes exactly one of the 256 values of the fifth byte is accepted and the
other 255 are rejected. When the transfer fails the result is `false`. -/
theorem C11_checksum_gate (b0 b1 b2 b3 : Nat) :
    (∀ b4 : Nat, (read (some ⟨b0, b1, b2, b3, b4⟩)).isSome = true ↔
      (b0 + b1 + b2 + b3) % 256 = b4) ∧
    (List.range 256).countP (fun b4 => (read (some ⟨b0, b1, b2, b3, b4⟩)).isSome) = 1 ∧
    (List.range 256).countP (fun b4 => !(read (some ⟨b0, b1, b2, b3, b4⟩)).isSome) = 255 ∧
    read none = none := by
  have hc : (List.range 256).countP (fun b4 => (read (some ⟨b0, b1, b2, b3, b4⟩)).isSome)
      = 1 := by
    rw [← countP_eq_one ((b0 + b1 + b2 + b3) % 256) 256 (Nat.mod_lt _ (by decide))]
    congr 1
    funext b4
    rw [Bool.eq_iff_iff, read_some_isSome]
    simp
  refine ⟨fun b4 => read_some_isSome _, hc, ?_, rfl⟩
  have := List.length_eq_countP_add_countP
    (fun b4 => (read (some ⟨b0, b1, b2, b3, b4⟩)).isSome) (List.range 256)
  rw [hc, List.length_range] at this
  have h2 : (fun b4 => !(read (some ⟨b0, b1, b2, b3, b4⟩)).isSome) =
      (fun a => decide (¬ (read (some ⟨b0, b1, b2, b3, a⟩)).isSome = true)) := by
    funext b4
    cases (read (some ⟨b0, b1, b2, b3, b4⟩)).isSome <;> rfl
  rw [h2]
  omega

/-- Witness for C11: the frame `45, 0, 23, 5` has checksum 73: the fifth byte 73 is
accepted and 74 is rejected. -/
theorem C11_checksum_gate_witness :
    (read (some ⟨45, 0, 23, 5, 73⟩)).isSome = true ∧
    (read (some ⟨45, 0, 23, 5, 74⟩)).isSome = false :=
  ⟨((C11_checksum_gate 45 0 23 5).1 73).2 (by decide),
    by
      have h := (C11_checksum_gate 45 0 23 5).1 74
      cases hb : (read (some ⟨45, 0, 23, 5, 74⟩)).isSome with
      | false => rfl
      | true => exact absurd (h.1 hb) (by decide)⟩

end DHT11
